import Mathlib

/-!
Verification of the `links` command-line link manager (src/src/links.c).

Strings are modelled as `List Char` (`Str`): C buffers are `char[MAX_STR]`
with `MAX_STR = 64`, so a stored string holds at most 63 characters and
`strncpy(dst, src, MAX_STR - 1)` is modelled as `List.take 63`.

The in-memory graph (`Module* root_modules`, each module owning a singly
linked list of `Port`s) is modelled as a `List` of modules, each with a
`List` of ports, in list order.  Every store operation in links.c either
leaves the `next` pointers in list shape or only appends at the tail, with
the single exception of `cmd_move_port`, which rewires `next` pointers
directly; that function is modelled separately, pointer-faithfully, on a
node heap (`PHeap`) so that results that are not lists (cycles) are
representable.
-/

set_option maxRecDepth 10000

namespace Links

abbrev Str := List Char

/-- Shorthand for string literals as character lists. -/
def str (s : String) : Str := s.data

/-- `typedef enum { DIR_NONE, DIR_IN, DIR_OUT } Direction;` -/
inductive Direction where
  | DIR_NONE : Direction
  | DIR_IN : Direction
  | DIR_OUT : Direction
deriving DecidableEq, Repr

export Direction (DIR_NONE DIR_IN DIR_OUT)

/-- `struct Port` (the `next` pointer is the list structure). -/
structure Port where
  name : Str
  type : Str
  dir : Direction
  dest_module : Str
  dest_port : Str
deriving DecidableEq, Repr

/-- `struct Module` (the `next` pointer is the list structure). -/
structure Module where
  name : Str
  ports : List Port
deriving DecidableEq, Repr

/-- `Module* root_modules` — the whole store. -/
abbrev Store := List Module

/-- `dir_to_str` from links.c. -/
def dir_to_str : Direction → Str
  | DIR_IN => str "in"
  | DIR_OUT => str "out"
  | DIR_NONE => str "none"

/-- `str_to_dir` from links.c. -/
def str_to_dir (s : Str) : Direction :=
  if s = str "in" then DIR_IN
  else if s = str "out" then DIR_OUT
  else DIR_NONE

/-! ### Small list helpers (index update and first-match lookup) -/

/-- Replace the element at index `i` by `f` of it (no-op out of range). -/
def modifyIdx {α : Type} : List α → Nat → (α → α) → List α
  | [], _, _ => []
  | a :: l, 0, f => f a :: l
  | a :: l, n + 1, f => a :: modifyIdx l n f

/-- `nth l i` — the element at index `i`. -/
def nth {α : Type} : List α → Nat → Option α
  | [], _ => none
  | a :: _, 0 => some a
  | _ :: l, n + 1 => nth l n

/-- Index of the first element satisfying `q` (a linear scan, as in
`get_module`/`get_port`). -/
def firstIdx {α : Type} (q : α → Bool) : List α → Option Nat
  | [] => none
  | a :: l => if q a then some 0 else (firstIdx q l).map (· + 1)

/-! ### GraphStore: get-or-create lookups -/

/-- A freshly created module: `strncpy` of the name, no ports. -/
def mkModule (name : Str) : Module := ⟨name.take 63, []⟩

/-- A freshly created port: name copied, type/destination empty, `DIR_NONE`. -/
def mkPort (pname : Str) : Port := ⟨pname.take 63, [], DIR_NONE, [], []⟩

/-- `get_module` from links.c: `none` for an empty name; otherwise a linear
scan by (full, untruncated) name, appending a new module at the tail when
absent and `create` is set.  Returns the index of the module and the
resulting store. -/
def get_module (st : Store) (name : Str) (create : Bool) : Option Nat × Store :=
  if name.isEmpty then (none, st)
  else
    match firstIdx (fun m => m.name == name) st with
    | some i => (some i, st)
    | none => if create then (some st.length, st ++ [mkModule name]) else (none, st)

/-- `get_port` from links.c, over one module's port list. -/
def get_port (ports : List Port) (pname : Str) (create : Bool) :
    Option Nat × List Port :=
  if pname.isEmpty then (none, ports)
  else
    match firstIdx (fun p => p.name == pname) ports with
    | some i => (some i, ports)
    | none => if create then (some ports.length, ports ++ [mkPort pname]) else (none, ports)

/-- The port list of the module at index `i`. -/
def portsAt (st : Store) (i : Nat) : List Port :=
  match nth st i with
  | some m => m.ports
  | none => []

/-- Replace the port list of the module at index `i`. -/
def setPorts (st : Store) (i : Nat) (ps : List Port) : Store :=
  modifyIdx st i (fun m => { m with ports := ps })

/-- Update the port at index `j` of the module at index `i` (a write through
a `Port*` obtained from `get_port`). -/
def updPort (st : Store) (i j : Nat) (f : Port → Port) : Store :=
  modifyIdx st i (fun m => { m with ports := modifyIdx m.ports j f })

/-! ### ArgumentParser: `parse_arg_safe` -/

/-- Split at the first occurrence of `"::"` (C `strstr(input, "::")`):
the text before it and the text after it. -/
def splitFirst2 : Str → Option (Str × Str)
  | [] => none
  | c :: rest =>
    if c = ':' ∧ rest.head? = some ':' then some ([], rest.tail)
    else (splitFirst2 rest).map (fun pr => (c :: pr.1, pr.2))

/-- Split at the first `':'` (C `strchr(rest, ':')`). -/
def splitFirst1 : Str → Option (Str × Str)
  | [] => none
  | c :: rest =>
    if c = ':' then some ([], rest)
    else (splitFirst1 rest).map (fun pr => (c :: pr.1, pr.2))

/-- The outputs of `parse_arg_safe`: the returned flag and the three
output buffers. -/
structure ParseRes where
  ok : Bool
  m : Str
  p : Str
  t : Str
deriving DecidableEq, Repr

/-- `parse_arg_safe` from links.c.  Splits `"Module::Port:Type"` at the
first `"::"` and then at the first `':'` of the remainder; every output is
truncated to 63 characters; the flag is `true` iff the module output is
non-empty. -/
def parse_arg_safe (input : Str) : ParseRes :=
  if input = [] then ⟨false, [], [], []⟩
  else
    match splitFirst2 input with
    | some (mPart, rest) =>
      let m_out := mPart.take 63
      match splitFirst1 rest with
      | some (pPart, tPart) => ⟨!m_out.isEmpty, m_out, pPart.take 63, tPart.take 63⟩
      | none => ⟨!m_out.isEmpty, m_out, rest.take 63, []⟩
    | none =>
      let m_out := input.take 63
      ⟨!m_out.isEmpty, m_out, [], []⟩

/-! ### CommandHandlers (list model): add, remove, edit

Each command takes its (already dispatched) argument tokens and returns the
new store together with a result tag recording which `printf` branch the C
code took. -/

/-- `strncpy(p->type, t, MAX_STR-1)`. -/
def setTypeF (t : Str) : Port → Port := fun p => { p with type := t.take 63 }

/-- `ps->dir = DIR_OUT;` and the two destination `strncpy`s of `cmd_add`. -/
def setLinkF (dm dp : Str) : Port → Port := fun p =>
  { p with dir := DIR_OUT, dest_module := dm.take 63, dest_port := dp.take 63 }

/-- `pd->dir = DIR_IN;` and the destination clearing of `cmd_add`. -/
def setInF : Port → Port := fun p =>
  { p with dir := DIR_IN, dest_module := [], dest_port := [] }

inductive AddResult where
  | invalidSource : AddResult
  | invalidDest : AddResult
  | missingSourcePort : AddResult
  | linked (s_mod s_port s_type d_mod d_port d_type : Str) : AddResult
deriving DecidableEq, Repr

/-- `cmd_add` from links.c, with the mutations in source order: source
type write, destination type write, source link write, destination clear. -/
def cmd_add (st : Store) (src dst : Str) : Store × AddResult :=
  let pr_s := parse_arg_safe src
  if !pr_s.ok then (st, .invalidSource)
  else
    let pr_d := parse_arg_safe dst
    if !pr_d.ok then (st, .invalidDest)
    else if pr_s.p.isEmpty then (st, .missingSourcePort)
    else
      let s_mod := pr_s.m
      let s_port := pr_s.p
      let s_type := if pr_s.t.isEmpty then str "unknown" else pr_s.t
      let d_mod := pr_d.m
      let d_port := if pr_d.p.isEmpty then s_port else pr_d.p
      let d_type := if pr_d.t.isEmpty then s_type else pr_d.t
      match get_module st s_mod true with
      | (none, st1) => (st1, .invalidSource)   -- unreachable: create with non-empty name
      | (some ms, st1) =>
        match get_port (portsAt st1 ms) s_port true with
        | (none, ports1) => (setPorts st1 ms ports1, .missingSourcePort)   -- unreachable
        | (some psi, ports1) =>
          let st3 := updPort (setPorts st1 ms ports1) ms psi (setTypeF s_type)
          match get_module st3 d_mod true with
          | (none, st4) => (st4, .invalidDest)   -- unreachable
          | (some md, st4) =>
            match get_port (portsAt st4 md) d_port true with
            | (none, ports2) => (setPorts st4 md ports2, .invalidDest)   -- unreachable
            | (some pdi, ports2) =>
              let st6 := updPort (setPorts st4 md ports2) md pdi (setTypeF d_type)
              let st7 := updPort st6 ms psi (setLinkF d_mod d_port)
              let st8 := updPort st7 md pdi setInF
              (st8, .linked s_mod s_port s_type d_mod d_port d_type)

/-- The clearing writes of `cmd_remove`. -/
def clearLinkF : Port → Port := fun q =>
  { q with dest_module := ([] : Str), dest_port := ([] : Str), dir := DIR_NONE }

inductive RemoveResult where
  | noModule : RemoveResult     -- silent `return` (no message printed)
  | noPort : RemoveResult       -- silent `return` (no message printed)
  | removed : RemoveResult      -- "Link removed."
  | notFound : RemoveResult     -- "Link not found."
deriving DecidableEq, Repr

/-- `cmd_remove` from links.c.  The parse results are used unchecked; the
lookups do not create; clearing happens exactly when the recorded
destination equals the parsed destination pair. -/
def cmd_remove (st : Store) (src dst : Str) : Store × RemoveResult :=
  let pr_s := parse_arg_safe src
  let pr_d := parse_arg_safe dst
  match get_module st pr_s.m false with
  | (none, _) => (st, .noModule)
  | (some mi, _) =>
    match get_port (portsAt st mi) pr_s.p false with
    | (none, _) => (st, .noPort)
    | (some pj, _) =>
      match nth (portsAt st mi) pj with
      | none => (st, .noPort)   -- unreachable: the found index is in range
      | some p =>
        if p.dest_module == pr_d.m && p.dest_port == pr_d.p then
          (updPort st mi pj clearLinkF, .removed)
        else (st, .notFound)

inductive EditResult where
  | invalidFormat : EditResult
  | missingPort : EditResult
  | noModule : EditResult
  | noPort : EditResult
  | edited : EditResult
deriving DecidableEq, Repr

/-- The port update of `cmd_edit`: type write, destination cleared when the
new direction is `DIR_NONE` or `DIR_IN`, direction write. -/
def editF (new_type : Str) (new_dir : Direction) : Port → Port := fun p =>
  let p1 := { p with type := new_type.take 63 }
  let p2 := if new_dir = DIR_NONE ∨ new_dir = DIR_IN
            then { p1 with dest_module := ([] : Str), dest_port := ([] : Str) }
            else p1
  { p2 with dir := new_dir }

/-- `cmd_edit` from links.c: non-creating lookups, then one port update. -/
def cmd_edit (st : Store) (target new_type new_dir_s : Str) : Store × EditResult :=
  let pr := parse_arg_safe target
  if !pr.ok then (st, .invalidFormat)
  else if pr.p.isEmpty then (st, .missingPort)
  else
    match get_module st pr.m false with
    | (none, _) => (st, .noModule)
    | (some mi, _) =>
      match get_port (portsAt st mi) pr.p false with
      | (none, _) => (st, .noPort)
      | (some pj, _) =>
        (updPort st mi pj (editF new_type (str_to_dir new_dir_s)), .edited)

/-! ### `cmd_move_port`: a pointer-faithful heap model

`cmd_move_port` rewires `Port::next` pointers directly, and (unlike every
other operation) can leave the module's port chain in a non-list shape, so
it is modelled on an explicit node heap: node identifiers are indices into
`nodes`, `next` pointers are `Option Nat`, and `head` is the module's
`ports` field. -/

/-- A `Port` record together with its `next` pointer. -/
structure PNode where
  name : Str
  type : Str
  dir : Direction
  dest_module : Str
  dest_port : Str
  next : Option Nat
deriving DecidableEq, Repr

/-- One module's port chain: the node heap and the `ports` head pointer. -/
structure PHeap where
  nodes : List PNode
  head : Option Nat
deriving DecidableEq, Repr

/-- Dereference a node's `next` pointer (`none` when the node id dangles). -/
def getNext (h : PHeap) (i : Nat) : Option Nat :=
  match nth h.nodes i with
  | some nd => nd.next
  | none => none

/-- The name stored at a node. -/
def nodeName (h : PHeap) (i : Nat) : Option Str :=
  match nth h.nodes i with
  | some nd => some nd.name
  | none => none

/-- Write a node's `next` pointer. -/
def setNext (h : PHeap) (i : Nat) (v : Option Nat) : PHeap :=
  { h with nodes := modifyIdx h.nodes i (fun nd => { nd with next := v }) }

/-- `find_port_with_prev` from links.c: walk the chain from `p`, returning
the first node named `pname` together with its predecessor.  `fuel` bounds
the walk; on a well-formed chain `nodes.length + 1` steps always suffice. -/
def findFrom (h : PHeap) (pname : Str) : Nat → Option Nat → Option Nat →
    Option (Nat × Option Nat)
  | 0, _, _ => none
  | _ + 1, none, _ => none
  | fuel + 1, some i, prev =>
    match nth h.nodes i with
    | none => none
    | some nd => if nd.name == pname then some (i, prev) else findFrom h pname fuel nd.next (some i)

/-- The finder loop of `cmd_move_port`:
`finder = m->ports; while (finder && finder->next != target) finder = finder->next;`
returning the final `finder` value.  `fuel` bounds the walk (the C loop
terminates on every input a claim exercises). -/
def finderLoop (h : PHeap) (target : Nat) : Nat → Option Nat → Option Nat
  | _, none => none
  | 0, some i => some i
  | fuel + 1, some i =>
    if getNext h i == some target then some i
    else finderLoop h target fuel (getNext h i)

inductive MoveResult where
  | invalidFormat : MoveResult
  | missingPort : MoveResult
  | noPort : MoveResult
  | alreadyFirst : MoveResult   -- "... is already the first port (cannot move up)."
  | alreadyLast : MoveResult    -- "... is already the last port (cannot move down)."
  | moved : MoveResult
deriving DecidableEq, Repr

/-- The three pointer writes at the end of `cmd_move_port`, in source
order.  Note that step 2 reads `cur_port->next` after step 1 may already
have written it. -/
def moveSwap (h : PHeap) (cur target : Nat) (target_prev : Option Nat) :
    PHeap × MoveResult :=
  let h1 := match target_prev with
    | some tp => setNext h tp (some cur)
    | none => { h with head := some cur }
  let h2 := setNext h1 target (getNext h1 cur)
  let h3 := setNext h2 cur (some target)
  (h3, .moved)

/-- `cmd_move_port` from links.c, after the module has been found: argument
parsing and the module lookup are shared with the list model, and this is
the per-module part operating on the module's port chain. -/
def cmd_move_port (h : PHeap) (p_name : Str) (move_up : Bool) : PHeap × MoveResult :=
  if p_name.isEmpty then (h, .missingPort)
  else
    match findFrom h p_name (h.nodes.length + 1) h.head none with
    | none => (h, .noPort)
    | some (cur, prevOpt) =>
      if move_up then
        match prevOpt with
        | none => (h, .alreadyFirst)
        | some target =>
          let target_prev :=
            if h.head == some target then none
            else finderLoop h target (h.nodes.length + 1) h.head
          moveSwap h cur target target_prev
      else
        match getNext h cur with
        | none => (h, .alreadyLast)
        | some target => moveSwap h cur target (some cur)

/-- The chain read off from a starting pointer, as the traversal every
consumer in links.c performs (`while (p) { ...; p = p->next; }`); `none`
when `fuel` steps do not reach the end of the chain or a node id dangles. -/
def chainNames (h : PHeap) : Nat → Option Nat → Option (List Str)
  | _, none => some []
  | 0, some _ => none
  | fuel + 1, some i =>
    match nth h.nodes i with
    | none => none
    | some nd => (chainNames h fuel nd.next).map (nd.name :: ·)

/-- The heap holding a port list in list order: node `k` is the `k`-th
port, its `next` pointing at node `k+1`, the last node's `next` null. -/
def heapOfPorts (ports : List Port) : PHeap :=
  { nodes := ports.mapIdx (fun k p =>
      ⟨p.name, p.type, p.dir, p.dest_module, p.dest_port,
       if k + 1 < ports.length then some (k + 1) else none⟩),
    head := if ports.isEmpty then none else some 0 }

/-! ### PersistenceCodec: `save_xml` and `load_xml`

`save_xml` writes one line per `fprintf` call; the file is modelled as the
character stream and `fgets` as splitting that stream at newlines (every
line `save_xml` emits for a store with 63-character-bounded fields is far
below the 512-byte `fgets` buffer). -/

/-- C `strstr(s, pat)`: the remainder of `s` after the first occurrence of
`pat`, or `none` when `pat` does not occur. -/
def afterFirst (pat : Str) : Str → Option Str
  | [] => if pat.isEmpty then some [] else none
  | c :: rest =>
    if pat.isPrefixOf (c :: rest) then some ((c :: rest).drop pat.length)
    else afterFirst pat rest

/-- `strstr(s, pat) != NULL`. -/
def containsSub (s pat : Str) : Bool := (afterFirst pat s).isSome

/-- The module-name extraction of `load_xml`: `strchr(name_start, '"')`,
then the text before that quote (`*name_end = '\0'`). -/
def untilQuote (s : Str) : Option Str :=
  if s.any (fun c => c = '"') then some (s.takeWhile (fun c => c ≠ '"')) else none

/-- C `isspace`. -/
def isSpace (c : Char) : Bool :=
  c = ' ' || c = '\t' || c = '\n' || c = '\x0b' || c = '\x0c' || c = '\r'

/-- A whitespace directive in an `sscanf` format: skip any run of
whitespace. -/
def skipWs (s : Str) : Str := s.dropWhile isSpace

/-- A run of literal directives in an `sscanf` format: each input character
must match, else the scan stops. -/
def expectLit : Str → Str → Option Str
  | [], s => some s
  | _ :: _, [] => none
  | c :: cs, x :: xs => if x = c then expectLit cs xs else none

/-- A `%[^"]` conversion: one or more characters up to the next `'"'`;
matching zero characters is a conversion failure. -/
def readField (s : Str) : Option (Str × Str) :=
  let v := s.takeWhile (fun c => c ≠ '"')
  if v.isEmpty then none else some (v, s.dropWhile (fun c => c ≠ '"'))

/-- `\" key=\"` in the port format: the closing quote of the previous
attribute, a whitespace directive, the literal `key="`, then one `%[^"]`
conversion. -/
def scanKV (key : Str) (s : Str) : Option (Str × Str) :=
  match expectLit (str "\"") s with
  | none => none
  | some s1 =>
    match expectLit key (skipWs s1) with
    | none => none
    | some s2 => readField s2

/-- The `sscanf` call of `load_xml` with format
`"    <port name=\"%[^\"]\" type=\"%[^\"]\" dir=\"%[^\"]\" dest_mod=\"%[^\"]\" dest_port=\"%[^\"]\""`:
conversions are stored left to right until the first failing directive, the
remaining output buffers keeping their cleared (empty) values. -/
def sscanf_port (line : Str) : Str × Str × Str × Str × Str :=
  match expectLit (str "<port") (skipWs line) with
  | none => ([], [], [], [], [])
  | some s0 =>
    match expectLit (str "name=\"") (skipWs s0) with
    | none => ([], [], [], [], [])
    | some s1 =>
      match readField s1 with
      | none => ([], [], [], [], [])
      | some (nm, s2) =>
        match scanKV (str "type=\"") s2 with
        | none => (nm, [], [], [], [])
        | some (ty, s3) =>
          match scanKV (str "dir=\"") s3 with
          | none => (nm, ty, [], [], [])
          | some (ds, s4) =>
            match scanKV (str "dest_mod=\"") s4 with
            | none => (nm, ty, ds, [], [])
            | some (dm, s5) =>
              match scanKV (str "dest_port=\"") s5 with
              | none => (nm, ty, ds, dm, [])
              | some (dp, _) => (nm, ty, ds, dm, dp)

/-- The `<port .../>` line `save_xml` prints for a port. -/
def portLine (p : Port) : Str :=
  str "    <port name=\"" ++ p.name ++ str "\" type=\"" ++ p.type ++
  str "\" dir=\"" ++ dir_to_str p.dir ++ str "\" dest_mod=\"" ++ p.dest_module ++
  str "\" dest_port=\"" ++ p.dest_port ++ str "\" />"

/-- The lines `save_xml` prints for one module. -/
def moduleLines (m : Module) : List Str :=
  (str "  <module name=\"" ++ m.name ++ str "\">") ::
    (m.ports.map portLine ++ [str "  </module>"])

/-- All lines `save_xml` prints, in order. -/
def save_lines (st : Store) : List Str :=
  str "<root>" :: (st.flatMap moduleLines ++ [str "</root>"])

/-- Join lines into the written character stream (each `fprintf` ends in
`\n`). -/
def joinNl (ls : List Str) : Str := ls.flatMap (fun l => l ++ ['\n'])

/-- `save_xml` from links.c, as the file contents it writes. -/
def save_xml (st : Store) : Str := joinNl (save_lines st)

/-- Helper of `splitLines` (accumulating the current line reversed). -/
def splitLinesAux (cur : Str) : Str → List Str
  | [] => if cur.isEmpty then [] else [cur.reverse]
  | c :: rest =>
    if c = '\n' then cur.reverse :: splitLinesAux [] rest
    else splitLinesAux (c :: cur) rest

/-- The lines `fgets` yields from a character stream, without their
terminating newlines (nothing in `load_xml` reads past the last `'"'` of a
line, so dropping the terminator is immaterial). -/
def splitLines (s : Str) : List Str := splitLinesAux [] s

/-- One iteration of the `load_xml` loop on one line.  `none` models a
crash of the process (a `NULL`-pointer dereference in the C code). -/
def load_line (acc : Store × Option Nat) (line : Str) : Option (Store × Option Nat) :=
  let (st, cur) := acc
  if containsSub line (str "<module") then
    match afterFirst (str "name=\"") line with
    | none => none   -- strstr returned NULL and `NULL + 6` is dereferenced
    | some rest =>
      match untilQuote rest with
      | none => some (st, cur)   -- no closing quote: `current_mod` is not assigned
      | some nm =>
        let r := get_module st nm true
        some (r.2, r.1)
  else if containsSub line (str "<port") then
    match cur with
    | none => some (st, cur)
    | some mi =>
      match sscanf_port line with
      | (nm, ty, ds, dm, dp) =>
        match get_port (portsAt st mi) nm true with
        | (none, _) => none   -- get_port returned NULL; the strncpy after it crashes
        | (some pj, ports') =>
          some (updPort (setPorts st mi ports') mi pj (fun p =>
            { p with type := ty.take 63, dir := str_to_dir ds,
                     dest_module := dm.take 63, dest_port := dp.take 63 }), some mi)
  else some (st, cur)

/-- The `load_xml` line loop over a list of lines. -/
def load_lines : List Str → Store × Option Nat → Option (Store × Option Nat)
  | [], acc => some acc
  | l :: ls, acc =>
    match load_line acc l with
    | none => none
    | some acc' => load_lines ls acc'

/-- `load_xml` from links.c, decoding a file's contents into a store
(`load_xml` never clears the store first). -/
def load_xml (file : Str) (st : Store) : Option Store :=
  (load_lines (splitLines file) (st, none)).map (fun a => a.1)

/-! ### Observers -/

/-- The index of the first module with the given name. -/
def moduleIdx (st : Store) (n : Str) : Option Nat :=
  firstIdx (fun m => m.name == n) st

/-- The first module with the given name. -/
def findModule (st : Store) (n : Str) : Option Module :=
  match moduleIdx st n with
  | some i => nth st i
  | none => none

/-- The first port named `pn` of the first module named `mn`. -/
def findPort (st : Store) (mn pn : Str) : Option Port :=
  match findModule st mn with
  | none => none
  | some m =>
    match firstIdx (fun p => p.name == pn) m.ports with
    | some j => nth m.ports j
    | none => none

/-! ### Basic lemmas about the list helpers -/

theorem modifyIdx_length {α : Type} (l : List α) (i : Nat) (f : α → α) :
    (modifyIdx l i f).length = l.length := by
  induction l generalizing i with
  | nil => rfl
  | cons a l ih =>
    cases i with
    | zero => rfl
    | succ n => simpa [modifyIdx] using ih n

theorem nth_modifyIdx_self {α : Type} {l : List α} {i : Nat} {a : α} (f : α → α)
    (h : nth l i = some a) : nth (modifyIdx l i f) i = some (f a) := by
  induction l generalizing i with
  | nil => simp [nth] at h
  | cons b l ih =>
    cases i with
    | zero => simp [nth] at h; simp [modifyIdx, nth, h]
    | succ n => simpa [modifyIdx, nth] using ih (h := by simpa [nth] using h)

theorem nth_modifyIdx_ne {α : Type} (l : List α) (i j : Nat) (f : α → α)
    (h : j ≠ i) : nth (modifyIdx l i f) j = nth l j := by
  induction l generalizing i j with
  | nil => rfl
  | cons b l ih =>
    cases i with
    | zero =>
      cases j with
      | zero => exact absurd rfl h
      | succ m => simp [modifyIdx, nth]
    | succ n =>
      cases j with
      | zero => simp [modifyIdx, nth]
      | succ m => simpa [modifyIdx, nth] using ih n m (fun hh => h (by simp [hh]))

theorem nth_append_left {α : Type} {l : List α} (l' : List α) {i : Nat} {a : α}
    (h : nth l i = some a) : nth (l ++ l') i = some a := by
  induction l generalizing i with
  | nil => simp [nth] at h
  | cons b l ih =>
    cases i with
    | zero => simpa [nth] using h
    | succ n => simpa [nth] using ih (by simpa [nth] using h)

theorem nth_append_length {α : Type} (l l' : List α) :
    nth (l ++ l') l.length = nth l' 0 := by
  induction l with
  | nil => rfl
  | cons b l ih => simpa [nth] using ih

theorem nth_lt_length {α : Type} {l : List α} {i : Nat} {a : α}
    (h : nth l i = some a) : i < l.length := by
  induction l generalizing i with
  | nil => simp [nth] at h
  | cons b l ih =>
    cases i with
    | zero => simp
    | succ n => simpa [Nat.succ_lt_succ_iff, nth] using ih (by simpa [nth] using h)

theorem nth_mem {α : Type} {l : List α} {i : Nat} {a : α}
    (h : nth l i = some a) : a ∈ l := by
  induction l generalizing i with
  | nil => simp [nth] at h
  | cons b l ih =>
    cases i with
    | zero => simp [nth] at h; simp [h]
    | succ n => exact List.mem_cons_of_mem b (ih (by simpa [nth] using h))

theorem firstIdx_nth {α : Type} {q : α → Bool} {l : List α} {i : Nat}
    (h : firstIdx q l = some i) : ∃ a, nth l i = some a ∧ q a = true := by
  induction l generalizing i with
  | nil => simp [firstIdx] at h
  | cons b l ih =>
    by_cases hb : q b
    · simp [firstIdx, hb] at h
      exact ⟨b, by simp [← h, nth], hb⟩
    · simp [firstIdx, hb] at h
      obtain ⟨j, hj, rfl⟩ := h
      obtain ⟨a, ha, hq⟩ := ih hj
      exact ⟨a, by simpa [nth] using ha, hq⟩

theorem firstIdx_append_none {α : Type} {q : α → Bool} {l : List α}
    (h : firstIdx q l = none) (l' : List α) :
    firstIdx q (l ++ l') = (firstIdx q l').map (· + l.length) := by
  induction l with
  | nil => simp [firstIdx]
  | cons b l ih =>
    by_cases hb : q b
    · simp [firstIdx, hb] at h
    · simp [firstIdx, hb] at h ⊢
      rw [ih h]
      cases firstIdx q l' <;> simp [Nat.add_assoc, Nat.add_comm 1]

theorem firstIdx_append_some {α : Type} {q : α → Bool} {l : List α} {i : Nat}
    (h : firstIdx q l = some i) (l' : List α) :
    firstIdx q (l ++ l') = some i := by
  induction l generalizing i with
  | nil => simp [firstIdx] at h
  | cons b l ih =>
    by_cases hb : q b
    · simp [firstIdx, hb] at h ⊢
      exact h
    · simp [firstIdx, hb] at h ⊢
      obtain ⟨j, hj, rfl⟩ := h
      exact ⟨j, ih hj, rfl⟩

theorem firstIdx_none_iff {α : Type} {q : α → Bool} {l : List α} :
    firstIdx q l = none ↔ ∀ a ∈ l, q a = false := by
  induction l with
  | nil => simp [firstIdx]
  | cons b l ih =>
    by_cases hb : q b <;> simp [firstIdx, hb, ih]

theorem firstIdx_modifyIdx {α : Type} (q : α → Bool) (l : List α) (i : Nat)
    (f : α → α) (hf : ∀ a, q (f a) = q a) :
    firstIdx q (modifyIdx l i f) = firstIdx q l := by
  induction l generalizing i with
  | nil => rfl
  | cons b l ih =>
    cases i with
    | zero => simp [modifyIdx, firstIdx, hf]
    | succ n => simp [modifyIdx, firstIdx, ih n]

/-! ### C3: the reference-token parser -/

theorem splitFirst2_append {A : Str} (rest : Str) (h : ':' ∉ A) :
    splitFirst2 (A ++ ':' :: ':' :: rest) = some (A, rest) := by
  induction A with
  | nil => simp [splitFirst2]
  | cons c A ih =>
    have hc : c ≠ ':' := fun hh => h (hh ▸ List.mem_cons_self c A)
    have hA : ':' ∉ A := fun hh => h (List.mem_cons_of_mem c hh)
    simp [splitFirst2, hc, ih hA]

theorem splitFirst1_append {B : Str} (rest : Str) (h : ':' ∉ B) :
    splitFirst1 (B ++ ':' :: rest) = some (B, rest) := by
  induction B with
  | nil => simp [splitFirst1]
  | cons c B ih =>
    have hc : c ≠ ':' := fun hh => h (hh ▸ List.mem_cons_self c B)
    have hB : ':' ∉ B := fun hh => h (List.mem_cons_of_mem c hh)
    simp [splitFirst1, hc, ih hB]

theorem splitFirst1_none {B : Str} (h : ':' ∉ B) : splitFirst1 B = none := by
  induction B with
  | nil => rfl
  | cons c B ih =>
    have hc : c ≠ ':' := fun hh => h (hh ▸ List.mem_cons_self c B)
    have hB : ':' ∉ B := fun hh => h (List.mem_cons_of_mem c hh)
    simp [splitFirst1, hc, ih hB]

theorem splitFirst2_none {A : Str} (h : ¬ [':', ':'] <:+: A) : splitFirst2 A = none := by
  induction A with
  | nil => rfl
  | cons c A ih =>
    rw [List.infix_cons_iff] at h
    push_neg at h
    have h2 : splitFirst2 A = none := ih h.2
    by_cases hc : c = ':' ∧ A.head? = some ':'
    · exfalso
      apply h.1
      obtain ⟨rfl, hh⟩ := hc
      cases A with
      | nil => simp at hh
      | cons d A' =>
        simp at hh
        exact ⟨A', by simp [hh]⟩
    · simp [splitFirst2, hc, h2]

theorem take63_isEmpty (A : Str) : (A.take 63).isEmpty = A.isEmpty := by
  cases A <;> simp [List.isEmpty]

/-- C3: `parse_arg_safe` splits at the first `"::"` and the first following
`':'`: `A::B:C ↦ (A, B, C)` and `A::B ↦ (A, B, "")` whenever `A` and `B`
are colon-free (`C` arbitrary, so the split is at the *first* separators),
a token without `"::"` is all module name, the empty string fails, the
outputs are truncated to 63 characters, and the flag is set exactly when
the module output is non-empty. -/
theorem c3_parse_arg_safe_spec :
    (∀ A B C : Str, ':' ∉ A → ':' ∉ B →
      parse_arg_safe (A ++ str "::" ++ B ++ str ":" ++ C) =
        ⟨!A.isEmpty, A.take 63, B.take 63, C.take 63⟩) ∧
    (∀ A B : Str, ':' ∉ A → ':' ∉ B →
      parse_arg_safe (A ++ str "::" ++ B) =
        ⟨!A.isEmpty, A.take 63, B.take 63, []⟩) ∧
    (∀ A : Str, ¬ str "::" <:+: A →
      parse_arg_safe A = ⟨!A.isEmpty, A.take 63, [], []⟩) ∧
    (parse_arg_safe [] = ⟨false, [], [], []⟩) ∧
    (∀ s : Str, (parse_arg_safe s).ok = true ↔ (parse_arg_safe s).m ≠ []) ∧
    (∀ s : Str, (parse_arg_safe s).m.length ≤ 63 ∧ (parse_arg_safe s).p.length ≤ 63 ∧
      (parse_arg_safe s).t.length ≤ 63) := by
  have hmain : ∀ A B C : Str, ':' ∉ A → ':' ∉ B →
      parse_arg_safe (A ++ ':' :: ':' :: (B ++ ':' :: C)) =
        ⟨!A.isEmpty, A.take 63, B.take 63, C.take 63⟩ := by
    intro A B C hA hB
    have hne : A ++ ':' :: ':' :: (B ++ ':' :: C) ≠ [] := by
      cases A <;> simp
    simp [parse_arg_safe, hne, splitFirst2_append _ hA, splitFirst1_append _ hB,
      take63_isEmpty]
  refine ⟨?_, ?_, ?_, rfl, ?_, ?_⟩
  · intro A B C hA hB
    have := hmain A B C hA hB
    simpa [str, List.append_assoc] using this
  · intro A B hA hB
    have hne : A ++ ':' :: ':' :: B ≠ [] := by cases A <;> simp
    rw [show A ++ str "::" ++ B = A ++ ':' :: ':' :: B by simp [str, List.append_assoc]]
    simp [parse_arg_safe, hne, splitFirst2_append _ hA, splitFirst1_none hB,
      take63_isEmpty]
  · intro A hA
    cases hAe : A with
    | nil => rfl
    | cons c A' =>
      rw [← hAe]
      have hne : A ≠ [] := by simp [hAe]
      simp [parse_arg_safe, hne, splitFirst2_none (by simpa [str] using hA),
        take63_isEmpty]
  · intro s
    rw [parse_arg_safe]
    split
    · simp
    · rcases h2 : splitFirst2 s with _ | ⟨mPart, rest⟩
      · simp [h2, take63_isEmpty, List.isEmpty_iff]
      · rcases h1 : splitFirst1 rest with _ | ⟨pPart, tPart⟩ <;>
          simp [h2, h1, List.isEmpty_iff]
  · intro s
    rw [parse_arg_safe]
    split
    · simp
    · rcases h2 : splitFirst2 s with _ | ⟨mPart, rest⟩
      · simp [h2, List.length_take]
      · rcases h1 : splitFirst1 rest with _ | ⟨pPart, tPart⟩ <;>
          simp [h2, h1, List.length_take]

/-! ### C8 and C2: `cmd_move_port` -/

/-- C8: `move-up` on the first port of its module (the found port has no
predecessor) and `move-down` on the last port (the found port's `next` is
null) report the boundary error and return the chain completely
unchanged. -/
theorem c8_move_boundary_no_mutation (h : PHeap) (pname : Str) (c : Nat)
    (hne : pname ≠ []) :
    (h.head = some c → nodeName h c = some pname →
      cmd_move_port h pname true = (h, MoveResult.alreadyFirst)) ∧
    (∀ prev, findFrom h pname (h.nodes.length + 1) h.head none = some (c, prev) →
      getNext h c = none → cmd_move_port h pname false = (h, MoveResult.alreadyLast)) := by
  constructor
  · intro hhead hname
    have hemp : pname.isEmpty = false := by
      cases pname with
      | nil => exact absurd rfl hne
      | cons a l => rfl
    rcases hn : nth h.nodes c with _ | nd
    · simp [nodeName, hn] at hname
    · have hnm : nd.name = pname := by simpa [nodeName, hn] using hname
      have hfind : findFrom h pname (h.nodes.length + 1) h.head none = some (c, none) := by
        rw [hhead, findFrom, hn]
        simp [hnm]
      rw [cmd_move_port]
      simp [hemp, hfind]
  · intro prev hfind hnext
    have hemp : pname.isEmpty = false := by
      cases pname with
      | nil => exact absurd rfl hne
      | cons a l => rfl
    rw [cmd_move_port]
    simp [hemp, hfind, hnext]

/-- A two-port module chain `P, Q` for the boundary witness. -/
def exHeap : PHeap :=
  heapOfPorts [⟨str "P", str "t", DIR_NONE, [], []⟩, ⟨str "Q", str "u", DIR_NONE, [], []⟩]

theorem c8_move_boundary_witness :
    cmd_move_port exHeap (str "P") true = (exHeap, MoveResult.alreadyFirst) ∧
    cmd_move_port exHeap (str "Q") false = (exHeap, MoveResult.alreadyLast) :=
  ⟨(c8_move_boundary_no_mutation exHeap (str "P") 0 (by decide)).1 (by decide) (by decide),
   (c8_move_boundary_no_mutation exHeap (str "Q") 1 (by decide)).2 (some 0) (by decide)
     (by decide)⟩

/-- The chain after `mvd P` on the module `[P, Q]`. -/
def mvdResult : PHeap := (cmd_move_port exHeap (str "P") false).1

theorem c2_mvd_cycle_aux (fuel : Nat) :
    chainNames mvdResult fuel (some 0) = none ∧
    chainNames mvdResult fuel (some 1) = none := by
  induction fuel with
  | zero => exact ⟨rfl, rfl⟩
  | succ n ih =>
    constructor
    · rw [chainNames,
        show nth mvdResult.nodes 0 = some ⟨str "P", str "t", DIR_NONE, [], [], some 1⟩
          from rfl]
      simp [ih.2]
    · rw [chainNames,
        show nth mvdResult.nodes 1 = some ⟨str "Q", str "u", DIR_NONE, [], [], some 0⟩
          from rfl]
      simp [ih.1]

/-- C2 (code bug): `mvd P` on the module chain `[P, Q]` claims success
("Moved port ... down") but, because `target_prev == cur_port` in the
move-down case, the first rewiring step writes `cur->next = cur` before
the second step reads it: the result is the two-node cycle
`P -> Q -> P -> ...` (head still `P`), and walking the module's port list —
as `list`, `draw`, `dot` and `save_xml` all do — never terminates, at any
fuel.  The documented behaviour (swap with the successor) would give the
chain `Q, P`. -/
theorem c2_move_down_corrupts_chain :
    (cmd_move_port exHeap (str "P") false).2 = MoveResult.moved ∧
    mvdResult.head = some 0 ∧
    getNext mvdResult 0 = some 1 ∧
    getNext mvdResult 1 = some 0 ∧
    ∀ fuel, chainNames mvdResult fuel mvdResult.head = none := by
  refine ⟨by decide, by decide, by decide, by decide, ?_⟩
  intro fuel
  rw [show mvdResult.head = some 0 from rfl]
  exact (c2_mvd_cycle_aux fuel).1

/-! ### Lemmas about the get-or-create lookups and store updates -/

theorem parse_arg_lengths (s : Str) :
    (parse_arg_safe s).m.length ≤ 63 ∧ (parse_arg_safe s).p.length ≤ 63 ∧
    (parse_arg_safe s).t.length ≤ 63 := by
  rw [parse_arg_safe]
  split
  · simp
  · rcases h2 : splitFirst2 s with _ | ⟨mPart, rest⟩
    · simp [h2, List.length_take]
    · rcases h1 : splitFirst1 rest with _ | ⟨pPart, tPart⟩ <;>
        simp [h2, h1, List.length_take]

theorem moduleIdx_setPorts (st : Store) (i : Nat) (ps : List Port) (n : Str) :
    moduleIdx (setPorts st i ps) n = moduleIdx st n :=
  firstIdx_modifyIdx _ st i _ (fun a => rfl)

theorem moduleIdx_updPort (st : Store) (i j : Nat) (f : Port → Port) (n : Str) :
    moduleIdx (updPort st i j f) n = moduleIdx st n :=
  firstIdx_modifyIdx _ st i _ (fun a => rfl)

theorem nth_setPorts_self {st : Store} {i : Nat} {m : Module} (ps : List Port)
    (h : nth st i = some m) : nth (setPorts st i ps) i = some { m with ports := ps } :=
  nth_modifyIdx_self _ h

theorem nth_setPorts_ne (st : Store) {i j : Nat} (ps : List Port) (h : j ≠ i) :
    nth (setPorts st i ps) j = nth st j :=
  nth_modifyIdx_ne st i j _ h

theorem nth_updPort_self {st : Store} {i : Nat} (j : Nat) {m : Module} (f : Port → Port)
    (h : nth st i = some m) :
    nth (updPort st i j f) i = some { m with ports := modifyIdx m.ports j f } :=
  nth_modifyIdx_self _ h

theorem nth_updPort_ne (st : Store) {i k : Nat} (j : Nat) (f : Port → Port) (h : k ≠ i) :
    nth (updPort st i j f) k = nth st k :=
  nth_modifyIdx_ne st i k _ h

theorem isEmpty_false_of_ne_nil {s : Str} (h : s ≠ []) : s.isEmpty = false := by
  cases s with
  | nil => exact absurd rfl h
  | cons a l => rfl

theorem nth_append_single_ne {α : Type} (l : List α) (a : α) {j : Nat}
    (h : j ≠ l.length) : nth (l ++ [a]) j = nth l j := by
  induction l generalizing j with
  | nil =>
    cases j with
    | zero => exact absurd rfl h
    | succ m => cases m <;> rfl
  | cons b l ih =>
    cases j with
    | zero => rfl
    | succ m => simpa [nth] using ih (fun hh => h (by simp [hh]))

/-- `get_module(name, true)` with a non-empty name of stored length: it
returns an index holding a module named `name` (found, store unchanged, or
freshly created at the tail), that index being the first with that name. -/
theorem get_module_create (st : Store) {n : Str} (hne : n ≠ []) (hlen : n.length ≤ 63) :
    ∃ i st₂, get_module st n true = (some i, st₂) ∧
      moduleIdx st₂ n = some i ∧
      (∃ m, nth st₂ i = some m ∧ m.name = n) ∧
      (∀ j, j ≠ i → nth st₂ j = nth st j) ∧
      (st₂ = st ∨ (st₂ = st ++ [mkModule n] ∧ nth st₂ i = some (mkModule n) ∧
        firstIdx (fun m => m.name == n) st = none ∧ i = st.length)) := by
  have hemp := isEmpty_false_of_ne_nil hne
  have hmk : (mkModule n).name = n := by simp [mkModule, List.take_of_length_le hlen]
  rcases hfi : firstIdx (fun m => m.name == n) st with _ | i
  · refine ⟨st.length, st ++ [mkModule n], ?_, ?_, ?_, ?_, ?_⟩
    · rw [get_module]; simp [hemp, hfi]
    · rw [moduleIdx, firstIdx_append_none hfi]
      simp [firstIdx, hmk]
    · exact ⟨mkModule n, by simpa [nth] using nth_append_length st [mkModule n], hmk⟩
    · intro j hj
      exact nth_append_single_ne st (mkModule n) hj
    · exact Or.inr ⟨rfl, by simpa [nth] using nth_append_length st [mkModule n], hfi, rfl⟩
  · obtain ⟨m, hm, hq⟩ := firstIdx_nth hfi
    refine ⟨i, st, ?_, hfi, ⟨m, hm, by simpa using hq⟩, fun j hj => rfl, Or.inl rfl⟩
    rw [get_module]; simp [hemp, hfi]

/-- `get_port(mod, name, true)` with a non-empty name of stored length. -/
theorem get_port_create (ports : List Port) {n : Str} (hne : n ≠ []) (hlen : n.length ≤ 63) :
    ∃ j ports₂, get_port ports n true = (some j, ports₂) ∧
      firstIdx (fun p => p.name == n) ports₂ = some j ∧
      (∃ p, nth ports₂ j = some p ∧ p.name = n) ∧
      (∀ k, k ≠ j → nth ports₂ k = nth ports k) ∧
      (ports₂ = ports ∨ (ports₂ = ports ++ [mkPort n] ∧ nth ports₂ j = some (mkPort n) ∧
        firstIdx (fun p => p.name == n) ports = none ∧ j = ports.length)) := by
  have hemp := isEmpty_false_of_ne_nil hne
  have hmk : (mkPort n).name = n := by simp [mkPort, List.take_of_length_le hlen]
  rcases hfi : firstIdx (fun p => p.name == n) ports with _ | j
  · refine ⟨ports.length, ports ++ [mkPort n], ?_, ?_, ?_, ?_, ?_⟩
    · rw [get_port]; simp [hemp, hfi]
    · rw [firstIdx_append_none hfi]
      simp [firstIdx, hmk]
    · exact ⟨mkPort n, by simpa [nth] using nth_append_length ports [mkPort n], hmk⟩
    · intro k hk
      exact nth_append_single_ne ports (mkPort n) hk
    · exact Or.inr ⟨rfl, by simpa [nth] using nth_append_length ports [mkPort n], hfi, rfl⟩
  · obtain ⟨p, hp, hq⟩ := firstIdx_nth hfi
    refine ⟨j, ports, ?_, hfi, ⟨p, hp, by simpa using hq⟩, fun k hk => rfl, Or.inl rfl⟩
    rw [get_port]; simp [hemp, hfi]

/-- Read `findPort` off a module index, a port index and their contents. -/
theorem findPort_eq {st : Store} {mn pn : Str} {i j : Nat} {m : Module} {p : Port}
    (hm : moduleIdx st mn = some i) (hnm : nth st i = some m)
    (hj : firstIdx (fun p => p.name == pn) m.ports = some j)
    (hp : nth m.ports j = some p) :
    findPort st mn pn = some p := by
  simp [findPort, findModule, hm, hnm, hj, hp]

/-- The ports present in a store. -/
def PortIn (st : Store) (p : Port) : Prop := ∃ m, m ∈ st ∧ p ∈ m.ports

theorem mem_modifyIdx {α : Type} {l : List α} {i : Nat} {f : α → α} {a : α}
    (h : a ∈ modifyIdx l i f) : a ∈ l ∨ ∃ b, b ∈ l ∧ a = f b := by
  induction l generalizing i with
  | nil => simp [modifyIdx] at h
  | cons b l ih =>
    cases i with
    | zero =>
      rcases (by simpa [modifyIdx] using h : a = f b ∨ a ∈ l) with rfl | hal
      · exact Or.inr ⟨b, by simp, rfl⟩
      · exact Or.inl (by simp [hal])
    | succ k =>
      rcases (by simpa [modifyIdx] using h : a = b ∨ a ∈ modifyIdx l k f) with rfl | hal
      · exact Or.inl (by simp)
      · rcases ih hal with h1 | ⟨c, hc, rfl⟩
        · exact Or.inl (by simp [h1])
        · exact Or.inr ⟨c, by simp [hc], rfl⟩

theorem PortIn_setPorts {st : Store} {i : Nat} {ps : List Port} {p : Port}
    (h : PortIn (setPorts st i ps) p) :
    PortIn st p ∨ p ∈ ps := by
  obtain ⟨m, hm, hpm⟩ := h
  rcases mem_modifyIdx hm with hml | ⟨b, hb, rfl⟩
  · exact Or.inl ⟨m, hml, hpm⟩
  · exact Or.inr (by simpa using hpm)

theorem PortIn_updPort {st : Store} {i j : Nat} {f : Port → Port} {p : Port}
    (h : PortIn (updPort st i j f) p) :
    PortIn st p ∨ ∃ q, PortIn st q ∧ p = f q := by
  obtain ⟨m, hm, hpm⟩ := h
  rw [updPort] at hm
  rcases mem_modifyIdx hm with hml | ⟨b, hb, rfl⟩
  · exact Or.inl ⟨m, hml, hpm⟩
  · rcases mem_modifyIdx (by simpa using hpm) with hpl | ⟨q, hq, rfl⟩
    · exact Or.inl ⟨b, hb, hpl⟩
    · exact Or.inr ⟨q, ⟨b, hb, hq⟩, rfl⟩

theorem PortIn_append {st : Store} {ms : List Module} {p : Port}
    (h : PortIn (st ++ ms) p) : PortIn st p ∨ ∃ m, m ∈ ms ∧ p ∈ m.ports := by
  obtain ⟨m, hm, hpm⟩ := h
  rcases List.mem_append.1 hm with h1 | h2
  · exact Or.inl ⟨m, h1, hpm⟩
  · exact Or.inr ⟨m, h2, hpm⟩

theorem parse_ok_eq (s : Str) : (parse_arg_safe s).ok = !(parse_arg_safe s).m.isEmpty := by
  rw [parse_arg_safe]
  split
  · rfl
  · rcases h2 : splitFirst2 s with _ | ⟨mPart, rest⟩
    · simp [h2]
    · rcases h1 : splitFirst1 rest with _ | ⟨pPart, tPart⟩ <;> simp [h2, h1]

theorem parse_ok_m_ne {s : Str} (h : (parse_arg_safe s).ok = true) :
    (parse_arg_safe s).m ≠ [] := by
  rw [parse_ok_eq] at h
  simpa using h

/-! ### `cmd_add`: defaulting observers and the success characterization -/

/-- `if (strlen(s_type) == 0) strcpy(s_type, "unknown");` -/
def addSrcType (src : Str) : Str :=
  if (parse_arg_safe src).t.isEmpty then str "unknown" else (parse_arg_safe src).t

/-- `if (strlen(d_port) == 0) strcpy(d_port, s_port);` -/
def addDstPort (src dst : Str) : Str :=
  if (parse_arg_safe dst).p.isEmpty then (parse_arg_safe src).p else (parse_arg_safe dst).p

/-- `if (strlen(d_type) == 0) strcpy(d_type, s_type);` -/
def addDstType (src dst : Str) : Str :=
  if (parse_arg_safe dst).t.isEmpty then addSrcType src else (parse_arg_safe dst).t

theorem modifyIdx_comp {α : Type} (l : List α) (i : Nat) (f g : α → α) :
    modifyIdx (modifyIdx l i f) i g = modifyIdx l i (fun a => g (f a)) := by
  induction l generalizing i with
  | nil => rfl
  | cons b l ih =>
    cases i with
    | zero => rfl
    | succ n => simp [modifyIdx, ih n]

theorem updPort_comp (st : Store) (i j : Nat) (f g : Port → Port) :
    updPort (updPort st i j f) i j g = updPort st i j (fun p => g (f p)) := by
  rw [updPort, updPort, updPort, modifyIdx_comp]
  congr 1
  funext m
  simp [modifyIdx_comp]

theorem nth_modifyIdx_self' {α : Type} {l : List α} {i : Nat} {a : α} {f : α → α}
    (h : nth l i = some a) : nth (modifyIdx l i f) i = some (f a) :=
  nth_modifyIdx_self f h

theorem firstIdx_name_modifyIdx (x : Str) (l : List Port) (i : Nat) (f : Port → Port)
    (hf : ∀ p, (f p).name = p.name) :
    firstIdx (fun p => p.name == x) (modifyIdx l i f) =
      firstIdx (fun p => p.name == x) l :=
  firstIdx_modifyIdx _ l i f (fun a => by rw [hf])

/-- The success path of `cmd_add`, characterized: the reported link fields
(after the three defaulting steps), the final state of the destination port,
the final state of the source port when the two ports are distinct, and —
when source and destination coincide — that no out-link exists afterwards
that did not exist before. -/
theorem cmd_add_spec (st : Store) (src dst : Str)
    (hok_s : (parse_arg_safe src).ok = true)
    (hok_d : (parse_arg_safe dst).ok = true)
    (hsp : (parse_arg_safe src).p ≠ []) :
    ∃ st',
      cmd_add st src dst = (st', AddResult.linked (parse_arg_safe src).m
        (parse_arg_safe src).p (addSrcType src) (parse_arg_safe dst).m
        (addDstPort src dst) (addDstType src dst)) ∧
      findPort st' (parse_arg_safe dst).m (addDstPort src dst) =
        some ⟨addDstPort src dst, (addDstType src dst).take 63, DIR_IN, [], []⟩ ∧
      ((parse_arg_safe src).m ≠ (parse_arg_safe dst).m ∨
          (parse_arg_safe src).p ≠ addDstPort src dst →
        findPort st' (parse_arg_safe src).m (parse_arg_safe src).p =
          some ⟨(parse_arg_safe src).p, (addSrcType src).take 63, DIR_OUT,
            (parse_arg_safe dst).m, addDstPort src dst⟩) ∧
      ((parse_arg_safe src).m = (parse_arg_safe dst).m →
        (parse_arg_safe src).p = addDstPort src dst →
        ∀ p, PortIn st' p → p.dir = DIR_OUT →
          ∃ q, PortIn st q ∧ q.dir = DIR_OUT ∧
            q.dest_module = p.dest_module ∧ q.dest_port = p.dest_port) := by
  obtain ⟨hml_s, hpl_s, htl_s⟩ := parse_arg_lengths src
  obtain ⟨hml_d, hpl_d, htl_d⟩ := parse_arg_lengths dst
  have hsm_ne := parse_ok_m_ne hok_s
  have hdm_ne := parse_ok_m_ne hok_d
  set sm := (parse_arg_safe src).m with hsm_def
  set sp := (parse_arg_safe src).p with hsp_def
  set dm := (parse_arg_safe dst).m with hdm_def
  set sty := addSrcType src with hsty_def
  set dpo := addDstPort src dst with hdpo_def
  set dty := addDstType src dst with hdty_def
  have hdpo_ne : dpo ≠ [] := by
    rw [hdpo_def, addDstPort]
    split
    · exact hsp
    · rename_i hcond
      simpa [List.isEmpty_iff] using hcond
  have hdpo_len : dpo.length ≤ 63 := by
    rw [hdpo_def, addDstPort]
    split
    · exact hpl_s
    · exact hpl_d
  have hspe : sp.isEmpty = false := isEmpty_false_of_ne_nil hsp
  -- the four get-or-create steps
  obtain ⟨ms, st1, hgm1, hidx1, ⟨m1, hm1, hm1n⟩, hfr1, hcase1⟩ :=
    get_module_create st hsm_ne hml_s
  obtain ⟨psi, ports1, hgp1, hpidx1, ⟨p1, hp1, hp1n⟩, hpfr1, hpcase1⟩ :=
    get_port_create m1.ports hsp hpl_s
  set st3 : Store := updPort (setPorts st1 ms ports1) ms psi (setTypeF sty) with hst3
  have hm3 : nth st3 ms = some ⟨m1.name, modifyIdx ports1 psi (setTypeF sty)⟩ := by
    rw [hst3]
    have h5 := nth_setPorts_self ports1 hm1
    have h6 := nth_updPort_self psi (setTypeF sty) h5
    simpa using h6
  have hidx3 : ∀ n, moduleIdx st3 n = moduleIdx st1 n := by
    intro n
    rw [hst3, moduleIdx_updPort, moduleIdx_setPorts]
  have hfr3 : ∀ j, j ≠ ms → nth st3 j = nth st1 j := by
    intro j hj
    rw [hst3, nth_updPort_ne _ _ _ hj, nth_setPorts_ne _ _ hj]
  obtain ⟨md, st4, hgm2, hidx2, ⟨m2, hm2, hm2n⟩, hfr2, hcase2⟩ :=
    get_module_create st3 hdm_ne hml_d
  obtain ⟨pdi, ports2, hgp2, hpidx2, ⟨p2, hp2, hp2n⟩, hpfr2, hpcase2⟩ :=
    get_port_create m2.ports hdpo_ne hdpo_len
  set st8 : Store := updPort (updPort (updPort (setPorts st4 md ports2) md pdi
    (setTypeF dty)) ms psi (setLinkF dm dpo)) md pdi setInF with hst8
  have hports1 : portsAt st1 ms = m1.ports := by simp [portsAt, hm1]
  have hports4 : portsAt st4 md = m2.ports := by simp [portsAt, hm2]
  have hrun : cmd_add st src dst = (st8, .linked sm sp sty dm dpo dty) := by
    have e1 : (if (parse_arg_safe src).t.isEmpty then str "unknown"
        else (parse_arg_safe src).t) = sty := by rw [hsty_def, addSrcType]
    have e2 : (if (parse_arg_safe dst).p.isEmpty then sp
        else (parse_arg_safe dst).p) = dpo := by rw [hdpo_def, addDstPort]
    have e3 : (if (parse_arg_safe dst).t.isEmpty then sty
        else (parse_arg_safe dst).t) = dty := by
      rw [hdty_def, addDstType, hsty_def]
    rw [cmd_add]
    simp only [← hsm_def, ← hsp_def, ← hdm_def, hok_s, hok_d, hspe, Bool.not_true,
      Bool.false_eq_true, if_false, e1, e2, e3]
    rw [hgm1]
    simp only []
    rw [hports1, hgp1]
    simp only []
    rw [hgm2]
    simp only []
    rw [hports4, hgp2]
  -- shared membership helpers (used by the aliased-frame conjunct)
  have hst1P : ∀ p : Port, PortIn st1 p → PortIn st p := by
    intro p hp
    rcases hcase1 with rfl | ⟨heq, _, _⟩
    · exact hp
    · rw [heq] at hp
      rcases PortIn_append hp with h | ⟨m, hm', hpm⟩
      · exact h
      · simp only [List.mem_singleton] at hm'
        subst hm'
        simp [mkModule] at hpm
  have hports1P : ∀ p : Port, p ∈ ports1 → p ∈ m1.ports ∨ p = mkPort sp := by
    intro p hp
    rcases hpcase1 with rfl | ⟨heq, _, _⟩
    · exact Or.inl hp
    · rw [heq] at hp
      rcases List.mem_append.1 hp with h | h
      · exact Or.inl h
      · exact Or.inr (by simpa using h)
  have base1 : ∀ p : Port, p ∈ ports1 → p.dir = DIR_OUT →
      ∃ q, PortIn st q ∧ q.dir = DIR_OUT ∧
        q.dest_module = p.dest_module ∧ q.dest_port = p.dest_port := by
    intro p hp hout
    rcases hports1P p hp with h | rfl
    · exact ⟨p, hst1P p ⟨m1, nth_mem hm1, h⟩, hout, rfl, rfl⟩
    · simp [mkPort] at hout
  have base3 : ∀ p : Port, PortIn st3 p → p.dir = DIR_OUT →
      ∃ q, PortIn st q ∧ q.dir = DIR_OUT ∧
        q.dest_module = p.dest_module ∧ q.dest_port = p.dest_port := by
    intro p hp hout
    rw [hst3] at hp
    rcases PortIn_updPort hp with hp' | ⟨r, hr, rfl⟩
    · rcases PortIn_setPorts hp' with h1 | h2
      · exact ⟨p, hst1P p h1, hout, rfl, rfl⟩
      · exact base1 p h2 hout
    · rcases PortIn_setPorts hr with h1 | h2
      · exact ⟨r, hst1P r h1, by simpa [setTypeF] using hout, rfl, rfl⟩
      · obtain ⟨q, hq1, hq2, hq3, hq4⟩ := base1 r h2 (by simpa [setTypeF] using hout)
        exact ⟨q, hq1, hq2, by simpa [setTypeF] using hq3, by simpa [setTypeF] using hq4⟩
  refine ⟨st8, hrun, ?_, ?_, ?_⟩
  · -- final state of the destination port
    have hidx8 : moduleIdx st8 dm = some md := by
      rw [hst8, moduleIdx_updPort, moduleIdx_updPort, moduleIdx_updPort,
        moduleIdx_setPorts]
      exact hidx2
    have h5 : nth (setPorts st4 md ports2) md = some ⟨m2.name, ports2⟩ := by
      simpa using nth_setPorts_self ports2 hm2
    have h6 : nth (updPort (setPorts st4 md ports2) md pdi (setTypeF dty)) md =
        some ⟨m2.name, modifyIdx ports2 pdi (setTypeF dty)⟩ := by
      simpa using nth_updPort_self pdi (setTypeF dty) h5
    by_cases hmsmd : ms = md
    · subst hmsmd
      have h7 : nth (updPort (updPort (setPorts st4 ms ports2) ms pdi (setTypeF dty))
          ms psi (setLinkF dm dpo)) ms =
          some ⟨m2.name, modifyIdx (modifyIdx ports2 pdi (setTypeF dty)) psi
            (setLinkF dm dpo)⟩ := by
        simpa using nth_updPort_self psi (setLinkF dm dpo) h6
      have h8 : nth st8 ms = some ⟨m2.name,
          modifyIdx (modifyIdx (modifyIdx ports2 pdi (setTypeF dty)) psi
            (setLinkF dm dpo)) pdi setInF⟩ := by
        rw [hst8]
        simpa using nth_updPort_self pdi setInF h7
      have hfi : firstIdx (fun p => p.name == dpo)
          (modifyIdx (modifyIdx (modifyIdx ports2 pdi (setTypeF dty)) psi
            (setLinkF dm dpo)) pdi setInF) = some pdi := by
        rw [firstIdx_name_modifyIdx _ _ _ setInF (fun p => rfl),
          firstIdx_name_modifyIdx _ _ _ (setLinkF dm dpo) (fun p => rfl),
          firstIdx_name_modifyIdx _ _ _ (setTypeF dty) (fun p => rfl)]
        exact hpidx2
      have hnv : nth (modifyIdx (modifyIdx (modifyIdx ports2 pdi (setTypeF dty)) psi
          (setLinkF dm dpo)) pdi setInF) pdi =
          some ⟨p2.name, dty.take 63, DIR_IN, [], []⟩ := by
        by_cases hpp : psi = pdi
        · subst hpp
          rw [modifyIdx_comp, modifyIdx_comp]
          rw [nth_modifyIdx_self' hp2]
          simp [setInF, setLinkF, setTypeF]
        · rw [nth_modifyIdx_self' (by
            rw [nth_modifyIdx_ne _ _ _ _ (fun h => hpp h.symm)]
            exact nth_modifyIdx_self' hp2)]
          simp [setInF, setTypeF]
      have := findPort_eq hidx8 h8 hfi hnv
      rw [this, hp2n]
    · have h7 : nth (updPort (updPort (setPorts st4 md ports2) md pdi (setTypeF dty))
          ms psi (setLinkF dm dpo)) md =
          some ⟨m2.name, modifyIdx ports2 pdi (setTypeF dty)⟩ := by
        rw [nth_updPort_ne _ _ _ (fun h => hmsmd h.symm)]
        exact h6
      have h8 : nth st8 md = some ⟨m2.name,
          modifyIdx (modifyIdx ports2 pdi (setTypeF dty)) pdi setInF⟩ := by
        rw [hst8]
        simpa using nth_updPort_self pdi setInF h7
      have hfi : firstIdx (fun p => p.name == dpo)
          (modifyIdx (modifyIdx ports2 pdi (setTypeF dty)) pdi setInF) = some pdi := by
        rw [firstIdx_name_modifyIdx _ _ _ setInF (fun p => rfl),
          firstIdx_name_modifyIdx _ _ _ (setTypeF dty) (fun p => rfl)]
        exact hpidx2
      have hnv : nth (modifyIdx (modifyIdx ports2 pdi (setTypeF dty)) pdi setInF) pdi =
          some ⟨p2.name, dty.take 63, DIR_IN, [], []⟩ := by
        rw [modifyIdx_comp, nth_modifyIdx_self' hp2]
        simp [setInF, setTypeF]
      have := findPort_eq hidx8 h8 hfi hnv
      rw [this, hp2n]
  · -- final state of the source port when the two ports are distinct
    intro hdist
    by_cases hsmdm : sm = dm
    · -- same module: the destination lookup found the source's module
      have hsp_ne_dpo : sp ≠ dpo := by
        rcases hdist with h | h
        · exact absurd hsmdm h
        · exact h
      have hfi3 : firstIdx (fun m => m.name == dm) st3 = some ms :=
        (hidx3 dm).trans (by rw [← hsmdm]; exact hidx1)
      have hde : dm.isEmpty = false := isEmpty_false_of_ne_nil hdm_ne
      rw [get_module] at hgm2
      simp only [hde, Bool.false_eq_true, if_false, hfi3] at hgm2
      obtain ⟨hmd, hst4⟩ : ms = md ∧ st3 = st4 := by
        have h1 := congrArg Prod.fst hgm2
        have h2 := congrArg Prod.snd hgm2
        simp only at h1 h2
        exact ⟨Option.some.inj h1, h2⟩
      subst hmd
      have hm2eq : m2 = ⟨m1.name, modifyIdx ports1 psi (setTypeF sty)⟩ := by
        rw [← hst4] at hm2
        rw [hm3] at hm2
        exact (Option.some.inj hm2).symm
      have hm2ports : m2.ports = modifyIdx ports1 psi (setTypeF sty) := by rw [hm2eq]
      have hL1psi : nth (modifyIdx ports1 psi (setTypeF sty)) psi =
          some (setTypeF sty p1) := nth_modifyIdx_self' hp1
      have hnth2psi : nth ports2 psi = some (setTypeF sty p1) := by
        rcases hpcase2 with h | ⟨heq, _, _, _⟩
        · rw [h, hm2ports]; exact hL1psi
        · rw [heq]; exact nth_append_left _ (by rw [hm2ports]; exact hL1psi)
      have hfi2sp : firstIdx (fun p => p.name == sp) ports2 = some psi := by
        have hbase : firstIdx (fun p => p.name == sp) m2.ports = some psi := by
          rw [hm2ports, firstIdx_name_modifyIdx _ _ _ (setTypeF sty) (fun p => rfl)]
          exact hpidx1
        rcases hpcase2 with h | ⟨heq, _, _, _⟩
        · rw [h]; exact hbase
        · rw [heq]; exact firstIdx_append_some hbase _
      have hpsi_ne_pdi : psi ≠ pdi := by
        intro h
        rw [h, hp2] at hnth2psi
        have hpv : p2 = setTypeF sty p1 := Option.some.inj hnth2psi
        apply hsp_ne_dpo
        rw [← hp1n, ← hp2n, hpv]
        rfl
      have h5 : nth (setPorts st3 ms ports2) ms = some ⟨m2.name, ports2⟩ := by
        simpa using nth_setPorts_self ports2 (hst4 ▸ hm2)
      have h6 : nth (updPort (setPorts st3 ms ports2) ms pdi (setTypeF dty)) ms =
          some ⟨m2.name, modifyIdx ports2 pdi (setTypeF dty)⟩ := by
        simpa using nth_updPort_self pdi (setTypeF dty) h5
      have h7 : nth (updPort (updPort (setPorts st3 ms ports2) ms pdi (setTypeF dty))
          ms psi (setLinkF dm dpo)) ms =
          some ⟨m2.name, modifyIdx (modifyIdx ports2 pdi (setTypeF dty)) psi
            (setLinkF dm dpo)⟩ := by
        simpa using nth_updPort_self psi (setLinkF dm dpo) h6
      have h8 : nth st8 ms = some ⟨m2.name,
          modifyIdx (modifyIdx (modifyIdx ports2 pdi (setTypeF dty)) psi
            (setLinkF dm dpo)) pdi setInF⟩ := by
        rw [hst8, ← hst4]
        simpa using nth_updPort_self pdi setInF h7
      have hfiP : firstIdx (fun p => p.name == sp)
          (modifyIdx (modifyIdx (modifyIdx ports2 pdi (setTypeF dty)) psi
            (setLinkF dm dpo)) pdi setInF) = some psi := by
        rw [firstIdx_name_modifyIdx _ _ _ setInF (fun p => rfl),
          firstIdx_name_modifyIdx _ _ _ (setLinkF dm dpo) (fun p => rfl),
          firstIdx_name_modifyIdx _ _ _ (setTypeF dty) (fun p => rfl)]
        exact hfi2sp
      have hnvP : nth (modifyIdx (modifyIdx (modifyIdx ports2 pdi (setTypeF dty)) psi
          (setLinkF dm dpo)) pdi setInF) psi =
          some (setLinkF dm dpo (setTypeF sty p1)) := by
        rw [nth_modifyIdx_ne _ _ _ _ hpsi_ne_pdi]
        rw [nth_modifyIdx_self' (by
          rw [nth_modifyIdx_ne _ _ _ _ hpsi_ne_pdi]
          exact hnth2psi)]
      have hidx8 : moduleIdx st8 sm = some ms := by
        rw [hst8, moduleIdx_updPort, moduleIdx_updPort, moduleIdx_updPort,
          moduleIdx_setPorts, ← hst4, hidx3]
        exact hidx1
      have := findPort_eq hidx8 h8 hfiP hnvP
      rw [this]
      simp [setLinkF, setTypeF, hp1n, List.take_of_length_le hml_d,
        List.take_of_length_le hdpo_len]
    · -- different modules
      have hms_ne_md : ms ≠ md := by
        intro h
        rcases hcase2 with h4 | ⟨heq, hnthmk, hnone, hlen⟩
        · rw [h4, ← h, hm3] at hm2
          apply hsmdm
          rw [← hm1n, ← hm2n, (Option.some.inj hm2).symm]
        · have hlt : ms < st3.length := nth_lt_length hm3
          rw [hlen] at h
          exact absurd h (Nat.ne_of_lt hlt)
      have hidx4sm : moduleIdx st4 sm = some ms := by
        rcases hcase2 with h4 | ⟨heq, _, _, _⟩
        · rw [h4]
          exact (hidx3 sm).trans hidx1
        · rw [heq]
          exact firstIdx_append_some ((hidx3 sm).trans hidx1) _
      have hst4ms : nth st4 ms = some ⟨m1.name, modifyIdx ports1 psi (setTypeF sty)⟩ := by
        rw [hfr2 ms hms_ne_md]
        exact hm3
      have h6 : nth (updPort (setPorts st4 md ports2) md pdi (setTypeF dty)) ms =
          some ⟨m1.name, modifyIdx ports1 psi (setTypeF sty)⟩ := by
        rw [nth_updPort_ne _ _ _ hms_ne_md, nth_setPorts_ne _ _ hms_ne_md]
        exact hst4ms
      have h7 : nth (updPort (updPort (setPorts st4 md ports2) md pdi (setTypeF dty))
          ms psi (setLinkF dm dpo)) ms =
          some ⟨m1.name, modifyIdx (modifyIdx ports1 psi (setTypeF sty)) psi
            (setLinkF dm dpo)⟩ := by
        simpa using nth_updPort_self psi (setLinkF dm dpo) h6
      have h8 : nth st8 ms = some ⟨m1.name,
          modifyIdx (modifyIdx ports1 psi (setTypeF sty)) psi (setLinkF dm dpo)⟩ := by
        rw [hst8, nth_updPort_ne _ _ _ hms_ne_md]
        exact h7
      have hfiP : firstIdx (fun p => p.name == sp)
          (modifyIdx (modifyIdx ports1 psi (setTypeF sty)) psi (setLinkF dm dpo)) =
          some psi := by
        rw [firstIdx_name_modifyIdx _ _ _ (setLinkF dm dpo) (fun p => rfl),
          firstIdx_name_modifyIdx _ _ _ (setTypeF sty) (fun p => rfl)]
        exact hpidx1
      have hnvP : nth (modifyIdx (modifyIdx ports1 psi (setTypeF sty)) psi
          (setLinkF dm dpo)) psi = some (setLinkF dm dpo (setTypeF sty p1)) := by
        rw [modifyIdx_comp]
        exact nth_modifyIdx_self' hp1
      have hidx8 : moduleIdx st8 sm = some ms := by
        rw [hst8, moduleIdx_updPort, moduleIdx_updPort, moduleIdx_updPort,
          moduleIdx_setPorts]
        exact hidx4sm
      have := findPort_eq hidx8 h8 hfiP hnvP
      rw [this]
      simp [setLinkF, setTypeF, hp1n, List.take_of_length_le hml_d,
        List.take_of_length_le hdpo_len]
  · -- the aliased case records no new out-link
    intro hsmdm hspdpo
    have hfi3 : firstIdx (fun m => m.name == dm) st3 = some ms :=
      (hidx3 dm).trans (by rw [← hsmdm]; exact hidx1)
    have hde : dm.isEmpty = false := isEmpty_false_of_ne_nil hdm_ne
    rw [get_module] at hgm2
    simp only [hde, Bool.false_eq_true, if_false, hfi3] at hgm2
    obtain ⟨hmd, hst4⟩ : ms = md ∧ st3 = st4 := by
      have h1 := congrArg Prod.fst hgm2
      have h2 := congrArg Prod.snd hgm2
      simp only at h1 h2
      exact ⟨Option.some.inj h1, h2⟩
    subst hmd
    have hm2eq : m2 = ⟨m1.name, modifyIdx ports1 psi (setTypeF sty)⟩ := by
      rw [← hst4] at hm2
      rw [hm3] at hm2
      exact (Option.some.inj hm2).symm
    have hm2ports : m2.ports = modifyIdx ports1 psi (setTypeF sty) := by rw [hm2eq]
    have hfi2sp : firstIdx (fun p => p.name == sp) ports2 = some psi := by
      have hbase : firstIdx (fun p => p.name == sp) m2.ports = some psi := by
        rw [hm2ports, firstIdx_name_modifyIdx _ _ _ (setTypeF sty) (fun p => rfl)]
        exact hpidx1
      rcases hpcase2 with h | ⟨heq, _, _, _⟩
      · rw [h]; exact hbase
      · rw [heq]; exact firstIdx_append_some hbase _
    have hpdieq : pdi = psi := by
      have h := hpidx2
      rw [← hspdpo] at h
      rw [hfi2sp] at h
      exact (Option.some.inj h).symm
    subst hpdieq
    have base2 : ∀ p : Port, p ∈ ports2 → p.dir = DIR_OUT →
        ∃ q, PortIn st q ∧ q.dir = DIR_OUT ∧
          q.dest_module = p.dest_module ∧ q.dest_port = p.dest_port := by
      intro p hp hout
      have hp' : p ∈ m2.ports ∨ p = mkPort dpo := by
        rcases hpcase2 with h | ⟨heq, _, _, _⟩
        · rw [h] at hp; exact Or.inl hp
        · rw [heq] at hp
          rcases List.mem_append.1 hp with h1 | h1
          · exact Or.inl h1
          · exact Or.inr (by simpa using h1)
      rcases hp' with h1 | rfl
      · rw [hm2ports] at h1
        rcases mem_modifyIdx h1 with h2 | ⟨r, hr, rfl⟩
        · exact base1 p h2 hout
        · obtain ⟨q, hq1, hq2, hq3, hq4⟩ := base1 r hr (by simpa [setTypeF] using hout)
          exact ⟨q, hq1, hq2, by simpa [setTypeF] using hq3,
            by simpa [setTypeF] using hq4⟩
      · simp [mkPort] at hout
    have hcollapse : st8 = updPort (setPorts st3 ms ports2) ms pdi
        (fun p => setInF (setLinkF dm dpo (setTypeF dty p))) := by
      rw [hst8, ← hst4]
      simp only [updPort_comp]
    intro p hpin hout
    rw [hcollapse] at hpin
    rcases PortIn_updPort hpin with hp' | ⟨r, hr, rfl⟩
    · rcases PortIn_setPorts hp' with h1 | h2
      · exact base3 p h1 hout
      · exact base2 p h2 hout
    · simp [setInF] at hout

/-- C4 (counterexample to the claim as stated): `add M::P M::P` succeeds
(the link message is printed), yet the source port's direction afterwards
is `DIR_IN`, not `DIR_OUT` — the claim's "the source port's direction
becomes Out" is false for a successful add whose source and destination
resolve to the same port. -/
theorem c4_add_source_not_out_when_aliased :
    (cmd_add [] (str "M::P") (str "M::P")).2 =
      AddResult.linked (str "M") (str "P") (str "unknown") (str "M") (str "P")
        (str "unknown") ∧
    (findPort (cmd_add [] (str "M::P") (str "M::P")).1 (str "M") (str "P")).map
      Port.dir = some DIR_IN := by
  decide

/-- C4 (amended with: provided the source and destination tokens resolve to
distinct module/port pairs): on every such successful `add(src, dst)` the
source port's direction becomes `DIR_OUT` with destination set to the
destination module and port names, the destination port's direction becomes
`DIR_IN` with its destination fields cleared even if they previously held
stale values, the source type defaults to `"unknown"` when the src token
omits it, the destination port name defaults to the source port name when
the dst token omits it, and the destination type defaults to the source
type. -/
theorem c4_add_success_effects (st : Store) (src dst : Str)
    (hok_s : (parse_arg_safe src).ok = true)
    (hok_d : (parse_arg_safe dst).ok = true)
    (hsp : (parse_arg_safe src).p ≠ [])
    (hdist : (parse_arg_safe src).m ≠ (parse_arg_safe dst).m ∨
      (parse_arg_safe src).p ≠ addDstPort src dst) :
    ∃ st',
      cmd_add st src dst = (st', AddResult.linked (parse_arg_safe src).m
        (parse_arg_safe src).p (addSrcType src) (parse_arg_safe dst).m
        (addDstPort src dst) (addDstType src dst)) ∧
      findPort st' (parse_arg_safe src).m (parse_arg_safe src).p =
        some ⟨(parse_arg_safe src).p, (addSrcType src).take 63, DIR_OUT,
          (parse_arg_safe dst).m, addDstPort src dst⟩ ∧
      findPort st' (parse_arg_safe dst).m (addDstPort src dst) =
        some ⟨addDstPort src dst, (addDstType src dst).take 63, DIR_IN, [], []⟩ := by
  obtain ⟨st', h1, h2, h3, _⟩ := cmd_add_spec st src dst hok_s hok_d hsp
  exact ⟨st', h1, h3 hdist, h2⟩

theorem c4_add_success_effects_witness :
    ∃ st',
      cmd_add [] (str "S::P:T1") (str "D::Q") = (st', AddResult.linked
        (parse_arg_safe (str "S::P:T1")).m (parse_arg_safe (str "S::P:T1")).p
        (addSrcType (str "S::P:T1")) (parse_arg_safe (str "D::Q")).m
        (addDstPort (str "S::P:T1") (str "D::Q"))
        (addDstType (str "S::P:T1") (str "D::Q"))) ∧
      findPort st' (parse_arg_safe (str "S::P:T1")).m (parse_arg_safe (str "S::P:T1")).p =
        some ⟨(parse_arg_safe (str "S::P:T1")).p,
          (addSrcType (str "S::P:T1")).take 63, DIR_OUT,
          (parse_arg_safe (str "D::Q")).m, addDstPort (str "S::P:T1") (str "D::Q")⟩ ∧
      findPort st' (parse_arg_safe (str "D::Q")).m
          (addDstPort (str "S::P:T1") (str "D::Q")) =
        some ⟨addDstPort (str "S::P:T1") (str "D::Q"),
          (addDstType (str "S::P:T1") (str "D::Q")).take 63, DIR_IN, [], []⟩ :=
  c4_add_success_effects [] (str "S::P:T1") (str "D::Q") (by decide) (by decide)
    (by decide) (by decide)

/-- C9: when the source and destination tokens of a successful `add`
resolve to the same module and port (for example `add M::P M::P`), the
final state of that port is direction `DIR_IN` with empty destination
fields — the out-link written first is immediately overwritten — and no
out-link exists anywhere in the resulting store that was not (with the same
destination) already present before the add. -/
theorem c9_add_aliased_overwrites_out_link (st : Store) (src dst : Str)
    (hok_s : (parse_arg_safe src).ok = true)
    (hok_d : (parse_arg_safe dst).ok = true)
    (hsp : (parse_arg_safe src).p ≠ [])
    (hsame_m : (parse_arg_safe src).m = (parse_arg_safe dst).m)
    (hsame_p : (parse_arg_safe src).p = addDstPort src dst) :
    ∃ st',
      cmd_add st src dst = (st', AddResult.linked (parse_arg_safe src).m
        (parse_arg_safe src).p (addSrcType src) (parse_arg_safe dst).m
        (addDstPort src dst) (addDstType src dst)) ∧
      findPort st' (parse_arg_safe dst).m (addDstPort src dst) =
        some ⟨addDstPort src dst, (addDstType src dst).take 63, DIR_IN, [], []⟩ ∧
      (∀ p, PortIn st' p → p.dir = DIR_OUT →
        ∃ q, PortIn st q ∧ q.dir = DIR_OUT ∧
          q.dest_module = p.dest_module ∧ q.dest_port = p.dest_port) := by
  obtain ⟨st', h1, h2, _, h4⟩ := cmd_add_spec st src dst hok_s hok_d hsp
  exact ⟨st', h1, h2, h4 hsame_m hsame_p⟩

theorem c9_add_aliased_witness :
    ∃ st',
      cmd_add [] (str "M::P") (str "M::P") = (st', AddResult.linked
        (parse_arg_safe (str "M::P")).m (parse_arg_safe (str "M::P")).p
        (addSrcType (str "M::P")) (parse_arg_safe (str "M::P")).m
        (addDstPort (str "M::P") (str "M::P"))
        (addDstType (str "M::P") (str "M::P"))) ∧
      findPort st' (parse_arg_safe (str "M::P")).m
          (addDstPort (str "M::P") (str "M::P")) =
        some ⟨addDstPort (str "M::P") (str "M::P"),
          (addDstType (str "M::P") (str "M::P")).take 63, DIR_IN, [], []⟩ ∧
      (∀ p, PortIn st' p → p.dir = DIR_OUT →
        ∃ q, PortIn ([] : Store) q ∧ q.dir = DIR_OUT ∧
          q.dest_module = p.dest_module ∧ q.dest_port = p.dest_port) :=
  c9_add_aliased_overwrites_out_link [] (str "M::P") (str "M::P") (by decide)
    (by decide) (by decide) (by decide) (by decide)

/-! ### Lookup/update helper lemmas shared by edit, remove and the invariants -/

theorem findPort_some_elim {st : Store} {mn pn : Str} {p : Port}
    (h : findPort st mn pn = some p) :
    ∃ mi m pj, moduleIdx st mn = some mi ∧ nth st mi = some m ∧ m.name = mn ∧
      firstIdx (fun q => q.name == pn) m.ports = some pj ∧
      nth m.ports pj = some p ∧ p.name = pn := by
  rw [findPort, findModule] at h
  rcases hmi : moduleIdx st mn with _ | mi
  · simp [hmi] at h
  · rcases hm : nth st mi with _ | m
    · simp [hmi, hm] at h
    · rcases hpj : firstIdx (fun q => q.name == pn) m.ports with _ | pj
      · simp [hmi, hm, hpj] at h
      · simp only [hmi, hm, hpj] at h
        obtain ⟨m', hm', hq'⟩ := firstIdx_nth hmi
        rw [hm] at hm'
        obtain ⟨p', hp', hqp'⟩ := firstIdx_nth hpj
        rw [h] at hp'
        refine ⟨mi, m, pj, ?_, ?_, ?_, ?_, ?_, ?_⟩
        · first
          | exact hmi
          | rfl
        · first
          | exact hm
          | rfl
        · have he : m = m' := Option.some.inj hm'
          rw [he]
          simpa using hq'
        · first
          | exact hpj
          | rfl
        · first
          | exact h
          | rfl
        · have he : p = p' := Option.some.inj hp'
          rw [he]
          simpa using hqp'

theorem findPort_updPort_self {st : Store} {mn pn : Str} {mi pj : Nat} {m : Module}
    {p : Port} (f : Port → Port)
    (hmi : moduleIdx st mn = some mi) (hm : nth st mi = some m)
    (hpj : firstIdx (fun q => q.name == pn) m.ports = some pj)
    (hp : nth m.ports pj = some p) (hf : ∀ q, (f q).name = q.name) :
    findPort (updPort st mi pj f) mn pn = some (f p) := by
  have h1 : moduleIdx (updPort st mi pj f) mn = some mi := by
    rw [moduleIdx_updPort]; exact hmi
  have h2 : nth (updPort st mi pj f) mi =
      some (⟨m.name, modifyIdx m.ports pj f⟩ : Module) := by
    simpa using nth_updPort_self pj f hm
  have h3 : firstIdx (fun q => q.name == pn)
      (⟨m.name, modifyIdx m.ports pj f⟩ : Module).ports = some pj := by
    rw [show (⟨m.name, modifyIdx m.ports pj f⟩ : Module).ports =
      modifyIdx m.ports pj f from rfl]
    rw [firstIdx_name_modifyIdx _ _ _ f hf]; exact hpj
  have h4 : nth (⟨m.name, modifyIdx m.ports pj f⟩ : Module).ports pj = some (f p) :=
    nth_modifyIdx_self' hp
  exact findPort_eq h1 h2 h3 h4

theorem findModule_updPort_other {st : Store} {mn : Str} {mi : Nat} (pj : Nat)
    (f : Port → Port) (hmi : moduleIdx st mn = some mi) (n : Str) (hn : n ≠ mn) :
    findModule (updPort st mi pj f) n = findModule st n := by
  rcases hk : moduleIdx st n with _ | k
  · have h1 : moduleIdx (updPort st mi pj f) n = none := by
      rw [moduleIdx_updPort]; exact hk
    simp [findModule, h1, hk]
  · have hkmi : k ≠ mi := by
      intro hkeq
      obtain ⟨mk, hmk, hqk⟩ := firstIdx_nth hk
      obtain ⟨mm, hmm, hqm⟩ := firstIdx_nth hmi
      rw [hkeq, hmm] at hmk
      apply hn
      have hmkeq : mm = mk := Option.some.inj hmk
      have h1 : mk.name = n := by simpa using hqk
      have h2 : mm.name = mn := by simpa using hqm
      rw [← h1, ← hmkeq, h2]
    have h1 : moduleIdx (updPort st mi pj f) n = some k := by
      rw [moduleIdx_updPort]; exact hk
    simp [findModule, h1, hk, nth_updPort_ne _ _ _ hkmi]

theorem findPort_updPort_other {st : Store} {mn pn : Str} {mi pj : Nat} {m : Module}
    (f : Port → Port) (hmi : moduleIdx st mn = some mi) (hm : nth st mi = some m)
    (hpj : firstIdx (fun q => q.name == pn) m.ports = some pj)
    (hf : ∀ q, (f q).name = q.name) (pn' : Str) (hpn : pn' ≠ pn) :
    findPort (updPort st mi pj f) mn pn' = findPort st mn pn' := by
  have hmu : moduleIdx (updPort st mi pj f) mn = some mi := by
    rw [moduleIdx_updPort]; exact hmi
  have h2 : nth (updPort st mi pj f) mi =
      some (⟨m.name, modifyIdx m.ports pj f⟩ : Module) := by
    simpa using nth_updPort_self pj f hm
  have hfx : firstIdx (fun q => q.name == pn')
      (⟨m.name, modifyIdx m.ports pj f⟩ : Module).ports =
      firstIdx (fun q => q.name == pn') m.ports :=
    firstIdx_name_modifyIdx _ _ _ f hf
  rcases hqj : firstIdx (fun q => q.name == pn') m.ports with _ | qj
  · simp [findPort, findModule, hmu, h2, hmi, hm, hfx, hqj]
  · have hqjpj : qj ≠ pj := by
      intro hqeq
      obtain ⟨pq, hpq, hqq⟩ := firstIdx_nth hqj
      obtain ⟨pp, hpp, hqp⟩ := firstIdx_nth hpj
      rw [hqeq, hpp] at hpq
      apply hpn
      have hpe : pp = pq := Option.some.inj hpq
      have h1 : pq.name = pn' := by simpa using hqq
      have h2 : pp.name = pn := by simpa using hqp
      rw [← h1, ← hpe, h2]
    simp [findPort, findModule, hmu, h2, hmi, hm, hfx, hqj,
      nth_modifyIdx_ne _ _ _ _ hqjpj]

theorem editF_eq (t : Str) (d : Direction) (p : Port) :
    editF t d p = ⟨p.name, t.take 63, d,
      if d = DIR_NONE ∨ d = DIR_IN then [] else p.dest_module,
      if d = DIR_NONE ∨ d = DIR_IN then [] else p.dest_port⟩ := by
  by_cases h : d = DIR_NONE ∨ d = DIR_IN <;> simp [editF, h]

theorem editF_name (t : Str) (d : Direction) (q : Port) : (editF t d q).name = q.name := by
  rw [editF_eq]

/-- C6: `edit(target, type, dirToken)` on an existing module and port
unconditionally sets the port's type to the given type (stored truncated to
the 63-character field size), sets the direction from the token with
unrecognized tokens mapping to `DIR_NONE`, clears the destination fields
exactly when the new direction is `DIR_IN` or `DIR_NONE` (even if the port
was previously `DIR_OUT` with a recorded destination) and otherwise leaves
them untouched — so `edit` never writes a destination — and leaves every
other module and port unchanged; when the module or port does not exist it
reports an error and leaves the store unchanged. -/
theorem c6_edit_spec (st : Store) (target new_type new_dir_s : Str) :
    (new_dir_s ≠ str "in" → new_dir_s ≠ str "out" →
      str_to_dir new_dir_s = DIR_NONE) ∧
    (∀ p, (parse_arg_safe target).ok = true → (parse_arg_safe target).p ≠ [] →
      findPort st (parse_arg_safe target).m (parse_arg_safe target).p = some p →
      (cmd_edit st target new_type new_dir_s).2 = EditResult.edited ∧
      findPort (cmd_edit st target new_type new_dir_s).1 (parse_arg_safe target).m
          (parse_arg_safe target).p =
        some ⟨p.name, new_type.take 63, str_to_dir new_dir_s,
          if str_to_dir new_dir_s = DIR_NONE ∨ str_to_dir new_dir_s = DIR_IN
          then [] else p.dest_module,
          if str_to_dir new_dir_s = DIR_NONE ∨ str_to_dir new_dir_s = DIR_IN
          then [] else p.dest_port⟩ ∧
      (∀ n, n ≠ (parse_arg_safe target).m →
        findModule (cmd_edit st target new_type new_dir_s).1 n = findModule st n) ∧
      (∀ pn, pn ≠ (parse_arg_safe target).p →
        findPort (cmd_edit st target new_type new_dir_s).1 (parse_arg_safe target).m pn =
          findPort st (parse_arg_safe target).m pn)) ∧
    (findPort st (parse_arg_safe target).m (parse_arg_safe target).p = none →
      (cmd_edit st target new_type new_dir_s).1 = st ∧
      (cmd_edit st target new_type new_dir_s).2 ≠ EditResult.edited) := by
  refine ⟨?_, ?_, ?_⟩
  · intro h1 h2
    rw [str_to_dir, if_neg h1, if_neg h2]
  · intro p hok hpne hfp
    obtain ⟨mi, m, pj, hmi, hm, hmn, hpj, hp, hpn⟩ := findPort_some_elim hfp
    have hemp : (parse_arg_safe target).p.isEmpty = false := isEmpty_false_of_ne_nil hpne
    have hmne := parse_ok_m_ne hok
    have hme : (parse_arg_safe target).m.isEmpty = false := isEmpty_false_of_ne_nil hmne
    have hmi' : firstIdx (fun q => q.name == (parse_arg_safe target).m) st = some mi := hmi
    have hgm : get_module st (parse_arg_safe target).m false = (some mi, st) := by
      rw [get_module]
      simp [hme, hmi']
    have hports : portsAt st mi = m.ports := by simp [portsAt, hm]
    have hgp : get_port m.ports (parse_arg_safe target).p false = (some pj, m.ports) := by
      rw [get_port]
      simp [hemp, hpj]
    have hrun : cmd_edit st target new_type new_dir_s =
        (updPort st mi pj (editF new_type (str_to_dir new_dir_s)),
          EditResult.edited) := by
      rw [cmd_edit]
      simp only [hok, Bool.not_true, Bool.false_eq_true, if_false, hemp]
      rw [hgm]
      simp only []
      rw [hports, hgp]
    refine ⟨by rw [hrun], ?_, ?_, ?_⟩
    · rw [hrun]
      have := findPort_updPort_self (editF new_type (str_to_dir new_dir_s)) hmi hm hpj
        hp (editF_name new_type (str_to_dir new_dir_s))
      rw [this, editF_eq]
    · intro n hn
      rw [hrun]
      exact findModule_updPort_other pj _ hmi n hn
    · intro pn hpne2
      rw [hrun]
      exact findPort_updPort_other _ hmi hm hpj
        (editF_name new_type (str_to_dir new_dir_s)) pn hpne2
  · intro hnone
    rw [cmd_edit]
    by_cases hok : (parse_arg_safe target).ok = true
    · by_cases hpe : (parse_arg_safe target).p.isEmpty = true
      · simp [hok, hpe]
      · simp only [hok, Bool.not_true, Bool.false_eq_true, if_false,
          hpe]
        by_cases hme : (parse_arg_safe target).m.isEmpty = true
        · have hgm : get_module st (parse_arg_safe target).m false = (none, st) := by
            rw [get_module]
            simp [hme]
          rw [hgm]
          simp
        · rcases hfi : firstIdx (fun q => q.name == (parse_arg_safe target).m) st
            with _ | mi
          · have hgm : get_module st (parse_arg_safe target).m false = (none, st) := by
              rw [get_module]
              simp [hme, hfi]
            rw [hgm]
            simp
          · have hgm : get_module st (parse_arg_safe target).m false = (some mi, st) := by
              rw [get_module]
              simp [hme, hfi]
            rw [hgm]
            simp only []
            obtain ⟨m, hm, hq⟩ := firstIdx_nth hfi
            have hports : portsAt st mi = m.ports := by simp [portsAt, hm]
            rw [hports]
            rcases hfj : firstIdx (fun q => q.name == (parse_arg_safe target).p) m.ports
              with _ | pj
            · have hpne2 : (parse_arg_safe target).p ≠ [] := by
                intro hh
                rw [hh] at hpe
                exact hpe rfl
              have hgp : get_port m.ports (parse_arg_safe target).p false =
                  (none, m.ports) := by
                rw [get_port]
                simp [isEmpty_false_of_ne_nil hpne2, hfj]
              rw [hgp]
              simp
            · exfalso
              obtain ⟨q, hq2, hq3⟩ := firstIdx_nth hfj
              have : findPort st (parse_arg_safe target).m (parse_arg_safe target).p =
                  some q := findPort_eq hfi hm hfj hq2
              rw [this] at hnone
              exact Option.noConfusion hnone
    · simp [hok]

/-- The success path of `cmd_remove`: when the found source port's recorded
destination equals the parsed destination pair, the port's link fields are
cleared. -/
theorem cmd_remove_match (st : Store) (src dst : Str) {p : Port}
    (hmne : (parse_arg_safe src).m ≠ []) (hpne : (parse_arg_safe src).p ≠ [])
    (hfp : findPort st (parse_arg_safe src).m (parse_arg_safe src).p = some p)
    (hdm : p.dest_module = (parse_arg_safe dst).m)
    (hdp : p.dest_port = (parse_arg_safe dst).p) :
    ∃ mi m pj, moduleIdx st (parse_arg_safe src).m = some mi ∧ nth st mi = some m ∧
      firstIdx (fun q => q.name == (parse_arg_safe src).p) m.ports = some pj ∧
      nth m.ports pj = some p ∧
      cmd_remove st src dst = (updPort st mi pj clearLinkF, RemoveResult.removed) := by
  obtain ⟨mi, m, pj, hmi, hm, hmn, hpj, hp, hpn⟩ := findPort_some_elim hfp
  have hemp := isEmpty_false_of_ne_nil hpne
  have hme := isEmpty_false_of_ne_nil hmne
  have hmi' : firstIdx (fun q => q.name == (parse_arg_safe src).m) st = some mi := hmi
  have hgm : get_module st (parse_arg_safe src).m false = (some mi, st) := by
    rw [get_module]
    simp [hme, hmi']
  have hports : portsAt st mi = m.ports := by simp [portsAt, hm]
  have hgp : get_port (portsAt st mi) (parse_arg_safe src).p false = (some pj, m.ports) := by
    rw [hports, get_port]
    simp [hemp, hpj]
  refine ⟨mi, m, pj, hmi, hm, hpj, hp, ?_⟩
  rw [cmd_remove]
  rw [hgm]
  simp only []
  rw [hgp]
  simp only []
  rw [hports, hp]
  simp [hdm, hdp]

/-- C7 (counterexample to the claim as stated): removing from an empty
store (the source module is absent) returns through the silent
`if (!m) return;` path — no "not found" message is printed (only the
`RemoveResult.notFound` branch prints "Link not found."). -/
theorem c7_remove_absent_is_silent :
    cmd_remove [] (str "A::B") (str "C::D") = ([], RemoveResult.noModule) ∧
    RemoveResult.noModule ≠ RemoveResult.notFound := by
  decide

/-- C7 (amended with: on a mismatch it reports "not found"; when the source
module or port is absent it returns silently, printing nothing): in all
non-matching cases the store is unchanged; when the recorded destination
exactly equals the given destination pair, the source port's direction and
destination are cleared while its name and type persist and every other
module and port is unchanged; and after a successful `add` of distinct
endpoints followed by `remove` with those same endpoints, the source port
is `DIR_NONE` with empty destination, name and type unchanged, everything
else unchanged. -/
theorem c7_remove_spec :
    (∀ (st : Store) (src dst : Str) (p : Port),
      (parse_arg_safe src).m ≠ [] → (parse_arg_safe src).p ≠ [] →
      findPort st (parse_arg_safe src).m (parse_arg_safe src).p = some p →
      p.dest_module = (parse_arg_safe dst).m → p.dest_port = (parse_arg_safe dst).p →
      (cmd_remove st src dst).2 = RemoveResult.removed ∧
      findPort (cmd_remove st src dst).1 (parse_arg_safe src).m (parse_arg_safe src).p =
        some ⟨p.name, p.type, DIR_NONE, [], []⟩ ∧
      (∀ n, n ≠ (parse_arg_safe src).m →
        findModule (cmd_remove st src dst).1 n = findModule st n) ∧
      (∀ pn, pn ≠ (parse_arg_safe src).p →
        findPort (cmd_remove st src dst).1 (parse_arg_safe src).m pn =
          findPort st (parse_arg_safe src).m pn)) ∧
    (∀ (st : Store) (src dst : Str) (p : Port),
      (parse_arg_safe src).m ≠ [] → (parse_arg_safe src).p ≠ [] →
      findPort st (parse_arg_safe src).m (parse_arg_safe src).p = some p →
      p.dest_module ≠ (parse_arg_safe dst).m ∨ p.dest_port ≠ (parse_arg_safe dst).p →
      cmd_remove st src dst = (st, RemoveResult.notFound)) ∧
    (∀ (st : Store) (src dst : Str),
      findPort st (parse_arg_safe src).m (parse_arg_safe src).p = none →
      (cmd_remove st src dst).1 = st ∧
      ((cmd_remove st src dst).2 = RemoveResult.noModule ∨
        (cmd_remove st src dst).2 = RemoveResult.noPort)) ∧
    (∀ (st0 : Store) (src0 dst0 src2 dst2 : Str),
      (parse_arg_safe src0).ok = true → (parse_arg_safe dst0).ok = true →
      (parse_arg_safe src0).p ≠ [] →
      ((parse_arg_safe src0).m ≠ (parse_arg_safe dst0).m ∨
        (parse_arg_safe src0).p ≠ addDstPort src0 dst0) →
      (parse_arg_safe src2).m = (parse_arg_safe src0).m →
      (parse_arg_safe src2).p = (parse_arg_safe src0).p →
      (parse_arg_safe dst2).m = (parse_arg_safe dst0).m →
      (parse_arg_safe dst2).p = addDstPort src0 dst0 →
      (cmd_remove (cmd_add st0 src0 dst0).1 src2 dst2).2 = RemoveResult.removed ∧
      findPort (cmd_remove (cmd_add st0 src0 dst0).1 src2 dst2).1
          (parse_arg_safe src0).m (parse_arg_safe src0).p =
        some ⟨(parse_arg_safe src0).p, (addSrcType src0).take 63, DIR_NONE, [], []⟩ ∧
      (∀ n, n ≠ (parse_arg_safe src0).m →
        findModule (cmd_remove (cmd_add st0 src0 dst0).1 src2 dst2).1 n =
          findModule (cmd_add st0 src0 dst0).1 n) ∧
      (∀ pn, pn ≠ (parse_arg_safe src0).p →
        findPort (cmd_remove (cmd_add st0 src0 dst0).1 src2 dst2).1
            (parse_arg_safe src0).m pn =
          findPort (cmd_add st0 src0 dst0).1 (parse_arg_safe src0).m pn)) := by
  have hsucc : ∀ (st : Store) (src dst : Str) (p : Port),
      (parse_arg_safe src).m ≠ [] → (parse_arg_safe src).p ≠ [] →
      findPort st (parse_arg_safe src).m (parse_arg_safe src).p = some p →
      p.dest_module = (parse_arg_safe dst).m → p.dest_port = (parse_arg_safe dst).p →
      (cmd_remove st src dst).2 = RemoveResult.removed ∧
      findPort (cmd_remove st src dst).1 (parse_arg_safe src).m (parse_arg_safe src).p =
        some ⟨p.name, p.type, DIR_NONE, [], []⟩ ∧
      (∀ n, n ≠ (parse_arg_safe src).m →
        findModule (cmd_remove st src dst).1 n = findModule st n) ∧
      (∀ pn, pn ≠ (parse_arg_safe src).p →
        findPort (cmd_remove st src dst).1 (parse_arg_safe src).m pn =
          findPort st (parse_arg_safe src).m pn) := by
    intro st src dst p hmne hpne hfp hdm hdp
    obtain ⟨mi, m, pj, hmi, hm, hpj, hp, hrun⟩ :=
      cmd_remove_match st src dst hmne hpne hfp hdm hdp
    refine ⟨by simp [hrun], ?_, ?_, ?_⟩
    · rw [hrun]
      exact findPort_updPort_self clearLinkF hmi hm hpj hp (fun q => rfl)
    · intro n hn
      rw [hrun]
      exact findModule_updPort_other pj clearLinkF hmi n hn
    · intro pn hpne2
      rw [hrun]
      exact findPort_updPort_other clearLinkF hmi hm hpj (fun q => rfl) pn hpne2
  refine ⟨hsucc, ?_, ?_, ?_⟩
  · -- mismatch: "Link not found.", no mutation
    intro st src dst p hmne hpne hfp hne
    obtain ⟨mi, m, pj, hmi, hm, hmn, hpj, hp, hpn⟩ := findPort_some_elim hfp
    have hemp := isEmpty_false_of_ne_nil hpne
    have hme := isEmpty_false_of_ne_nil hmne
    have hmi' : firstIdx (fun q => q.name == (parse_arg_safe src).m) st = some mi := hmi
    have hgm : get_module st (parse_arg_safe src).m false = (some mi, st) := by
      rw [get_module]
      simp [hme, hmi']
    have hports : portsAt st mi = m.ports := by simp [portsAt, hm]
    have hgp : get_port (portsAt st mi) (parse_arg_safe src).p false =
        (some pj, m.ports) := by
      rw [hports, get_port]
      simp [hemp, hpj]
    have hcond : (p.dest_module == (parse_arg_safe dst).m &&
        p.dest_port == (parse_arg_safe dst).p) = false := by
      rcases hne with h | h <;> simp [h]
    rw [cmd_remove]
    rw [hgm]
    simp only []
    rw [hgp]
    simp only []
    rw [hports, hp]
    simp only [hcond, Bool.false_eq_true, if_false]
  · -- absence: silent return through `if (!m) return;` / `if (!p) return;`
    intro st src dst hnone
    rw [cmd_remove]
    by_cases hme : (parse_arg_safe src).m.isEmpty = true
    · have hgm : get_module st (parse_arg_safe src).m false = (none, st) := by
        rw [get_module]
        simp [hme]
      rw [hgm]
      simp
    · rcases hfi : firstIdx (fun q => q.name == (parse_arg_safe src).m) st with _ | mi
      · have hgm : get_module st (parse_arg_safe src).m false = (none, st) := by
          rw [get_module]
          simp [hme, hfi]
        rw [hgm]
        simp
      · have hgm : get_module st (parse_arg_safe src).m false = (some mi, st) := by
          rw [get_module]
          simp [hme, hfi]
        rw [hgm]
        simp only []
        obtain ⟨m, hm, hq⟩ := firstIdx_nth hfi
        have hports : portsAt st mi = m.ports := by simp [portsAt, hm]
        by_cases hpe : (parse_arg_safe src).p.isEmpty = true
        · have hgp : get_port (portsAt st mi) (parse_arg_safe src).p false =
              (none, portsAt st mi) := by
            rw [get_port]
            simp [hpe]
          rw [hgp]
          simp
        · rcases hfj : firstIdx (fun q => q.name == (parse_arg_safe src).p) m.ports
            with _ | pj
          · have hgp : get_port (portsAt st mi) (parse_arg_safe src).p false =
                (none, m.ports) := by
              rw [hports, get_port]
              simp [hpe, hfj]
            rw [hgp]
            simp
          · exfalso
            obtain ⟨q, hq2, hq3⟩ := firstIdx_nth hfj
            have : findPort st (parse_arg_safe src).m (parse_arg_safe src).p =
                some q := findPort_eq hfi hm hfj hq2
            rw [this] at hnone
            exact Option.noConfusion hnone
  · -- add then remove with the same endpoints
    intro st0 src0 dst0 src2 dst2 hok_s hok_d hsp hdist hs2m hs2p hd2m hd2p
    obtain ⟨st', h1, h2, h3, _⟩ := cmd_add_spec st0 src0 dst0 hok_s hok_d hsp
    have hstA : (cmd_add st0 src0 dst0).1 = st' := by rw [h1]
    have hfpA := h3 hdist
    have hmne2 : (parse_arg_safe src2).m ≠ [] := by
      rw [hs2m]
      exact parse_ok_m_ne hok_s
    have hpne2 : (parse_arg_safe src2).p ≠ [] := by
      rw [hs2p]
      exact hsp
    have hfp2 : findPort (cmd_add st0 src0 dst0).1 (parse_arg_safe src2).m
        (parse_arg_safe src2).p =
        some ⟨(parse_arg_safe src0).p, (addSrcType src0).take 63, DIR_OUT,
          (parse_arg_safe dst0).m, addDstPort src0 dst0⟩ := by
      rw [hstA, hs2m, hs2p]
      exact hfpA
    obtain ⟨hr1, hr2, hr3, hr4⟩ := hsucc (cmd_add st0 src0 dst0).1 src2 dst2 _
      hmne2 hpne2 hfp2 (by simpa using hd2m.symm) (by simpa using hd2p.symm)
    rw [hs2m, hs2p] at hr2 hr4
    rw [hs2m] at hr3
    exact ⟨hr1, hr2, hr3, hr4⟩

/-! ### C10: empty names are rejected, so stored names are never empty -/

/-- Every module and port in the store has a non-empty name. -/
def namesOK (st : Store) : Prop :=
  ∀ m ∈ st, m.name ≠ [] ∧ ∀ p ∈ m.ports, p.name ≠ []

theorem take63_ne_nil {s : Str} (h : s ≠ []) : s.take 63 ≠ [] := by
  cases s with
  | nil => exact absurd rfl h
  | cons a l => simp

theorem namesOK_get_module {st : Store} {n : Str} {c : Bool} {r : Option Nat}
    {st₂ : Store} (h : namesOK st) (hg : get_module st n c = (r, st₂)) :
    namesOK st₂ := by
  rw [get_module] at hg
  split at hg
  · injection hg with h1 h2
    exact h2 ▸ h
  · rename_i hne
    split at hg
    · injection hg with h1 h2
      exact h2 ▸ h
    · split at hg
      · injection hg with h1 h2
        subst h2
        intro m hm
        rcases List.mem_append.1 hm with h1 | h1
        · exact h m h1
        · have : m = mkModule n := by simpa using h1
          subst this
          refine ⟨?_, by simp [mkModule]⟩
          have hnne : n ≠ [] := by
            intro hh
            rw [hh] at hne
            exact hne rfl
          simpa [mkModule] using take63_ne_nil hnne
      · injection hg with h1 h2
        exact h2 ▸ h

theorem names_get_port {ports : List Port} {n : Str} {c : Bool} {r : Option Nat}
    {ports₂ : List Port} (h : ∀ p ∈ ports, p.name ≠ [])
    (hg : get_port ports n c = (r, ports₂)) :
    ∀ p ∈ ports₂, p.name ≠ [] := by
  rw [get_port] at hg
  split at hg
  · injection hg with h1 h2
    exact h2 ▸ h
  · rename_i hne
    split at hg
    · injection hg with h1 h2
      exact h2 ▸ h
    · split at hg
      · injection hg with h1 h2
        subst h2
        intro p hp
        rcases List.mem_append.1 hp with h1 | h1
        · exact h p h1
        · have : p = mkPort n := by simpa using h1
          subst this
          have hnne : n ≠ [] := by
            intro hh
            rw [hh] at hne
            exact hne rfl
          simpa [mkPort] using take63_ne_nil hnne
      · injection hg with h1 h2
        exact h2 ▸ h

theorem namesOK_portsAt {st : Store} (h : namesOK st) (i : Nat) :
    ∀ p ∈ portsAt st i, p.name ≠ [] := by
  rw [portsAt]
  rcases hn : nth st i with _ | m
  · simp
  · exact (h m (nth_mem hn)).2

theorem namesOK_setPorts' {st : Store} {i : Nat} {ps : List Port}
    (h : namesOK st) (hps : ∀ p ∈ ps, p.name ≠ []) :
    namesOK (setPorts st i ps) := by
  intro m hm
  rcases mem_modifyIdx hm with h1 | ⟨b, hb, rfl⟩
  · exact h m h1
  · exact ⟨(h b hb).1, hps⟩

theorem namesOK_updPort' {st : Store} {i j : Nat} {f : Port → Port}
    (h : namesOK st) (hf : ∀ q, (f q).name = q.name) :
    namesOK (updPort st i j f) := by
  intro m hm
  rcases mem_modifyIdx hm with h1 | ⟨b, hb, rfl⟩
  · exact h m h1
  · refine ⟨(h b hb).1, ?_⟩
    intro p hp
    rcases mem_modifyIdx hp with h2 | ⟨q, hq, rfl⟩
    · exact (h b hb).2 p h2
    · rw [hf q]
      exact (h b hb).2 q hq

theorem namesOK_cmd_add (st : Store) (src dst : Str) (h : namesOK st) :
    namesOK (cmd_add st src dst).1 := by
  simp only [cmd_add]
  rcases hok1 : (parse_arg_safe src).ok with _ | _
  · exact h
  · rcases hok2 : (parse_arg_safe dst).ok with _ | _
    · exact h
    · rcases hpe : (parse_arg_safe src).p.isEmpty with _ | _
      · simp only [Bool.not_true, Bool.false_eq_true, if_false]
        rcases hgm : get_module st (parse_arg_safe src).m true with ⟨r1, st1⟩
        have h1 : namesOK st1 := namesOK_get_module h hgm
        rcases r1 with _ | ms
        · exact h1
        · simp only []
          rcases hgp : get_port (portsAt st1 ms) (parse_arg_safe src).p true
            with ⟨r2, ports1⟩
          have h2ports : ∀ p ∈ ports1, p.name ≠ [] :=
            names_get_port (namesOK_portsAt h1 ms) hgp
          rcases r2 with _ | psi
          · exact namesOK_setPorts' h1 h2ports
          · simp only []
            have h3 : namesOK (updPort (setPorts st1 ms ports1) ms psi
                (setTypeF (if (parse_arg_safe src).t.isEmpty = true then str "unknown"
                  else (parse_arg_safe src).t))) :=
              namesOK_updPort' (namesOK_setPorts' h1 h2ports) (fun q => rfl)
            rcases hgm2 : get_module (updPort (setPorts st1 ms ports1) ms psi
                (setTypeF (if (parse_arg_safe src).t.isEmpty = true then str "unknown"
                  else (parse_arg_safe src).t))) (parse_arg_safe dst).m true
              with ⟨r3, st4⟩
            have h4 : namesOK st4 := namesOK_get_module h3 hgm2
            rcases r3 with _ | md
            · exact h4
            · simp only []
              rcases hgp2 : get_port (portsAt st4 md)
                  (if (parse_arg_safe dst).p.isEmpty = true then (parse_arg_safe src).p
                    else (parse_arg_safe dst).p) true with ⟨r4, ports2⟩
              have h5ports : ∀ p ∈ ports2, p.name ≠ [] :=
                names_get_port (namesOK_portsAt h4 md) hgp2
              rcases r4 with _ | pdi
              · exact namesOK_setPorts' h4 h5ports
              · simp only []
                exact namesOK_updPort' (namesOK_updPort' (namesOK_updPort'
                  (namesOK_setPorts' h4 h5ports) (fun q => rfl)) (fun q => rfl))
                  (fun q => rfl)
      · exact h

theorem namesOK_cmd_remove (st : Store) (src dst : Str) (h : namesOK st) :
    namesOK (cmd_remove st src dst).1 := by
  simp only [cmd_remove]
  rcases hgm : get_module st (parse_arg_safe src).m false with ⟨r1, st1⟩
  rcases r1 with _ | mi
  · exact h
  · simp only []
    rcases hgp : get_port (portsAt st mi) (parse_arg_safe src).p false with ⟨r2, ports1⟩
    rcases r2 with _ | pj
    · exact h
    · simp only []
      rcases hn : nth (portsAt st mi) pj with _ | p
      · exact h
      · simp only []
        rcases hcond : (p.dest_module == (parse_arg_safe dst).m &&
            p.dest_port == (parse_arg_safe dst).p) with _ | _
        · exact h
        · exact namesOK_updPort' h (fun q => rfl)

theorem namesOK_cmd_edit (st : Store) (target nt nd : Str) (h : namesOK st) :
    namesOK (cmd_edit st target nt nd).1 := by
  simp only [cmd_edit]
  rcases hok : (parse_arg_safe target).ok with _ | _
  · exact h
  · rcases hpe : (parse_arg_safe target).p.isEmpty with _ | _
    · simp only [Bool.not_true, Bool.false_eq_true, if_false]
      rcases hgm : get_module st (parse_arg_safe target).m false with ⟨r1, st1⟩
      rcases r1 with _ | mi
      · exact h
      · simp only []
        rcases hgp : get_port (portsAt st mi) (parse_arg_safe target).p false
          with ⟨r2, ports1⟩
        rcases r2 with _ | pj
        · exact h
        · exact namesOK_updPort' h (editF_name nt (str_to_dir nd))
    · exact h

theorem namesOK_load_line {st : Store} {cur : Option Nat} {line : Str}
    {st' : Store} {cur' : Option Nat} (h : namesOK st)
    (hl : load_line (st, cur) line = some (st', cur')) : namesOK st' := by
  simp only [load_line] at hl
  rcases hc1 : containsSub line (str "<module") with _ | _
  · simp only [hc1, Bool.false_eq_true, if_false] at hl
    rcases hc2 : containsSub line (str "<port") with _ | _
    · simp only [hc2, Bool.false_eq_true, if_false] at hl
      injection hl with h1
      injection h1 with h2 h3
      exact h2 ▸ h
    · simp only [hc2, if_true] at hl
      rcases cur with _ | mi
      · simp only [] at hl
        injection hl with h1
        injection h1 with h2 h3
        exact h2 ▸ h
      · rcases hsc : sscanf_port line with ⟨nm, ty, ds, dm, dp⟩
        simp only [hsc] at hl
        rcases hgp : get_port (portsAt st mi) nm true with ⟨r2, ports'⟩
        simp only [hgp] at hl
        rcases r2 with _ | pj
        · simp only [] at hl
          exact Option.noConfusion hl
        · simp only [Option.some.injEq] at hl
          have h2 := congrArg Prod.fst hl
          simp only at h2
          rw [← h2]
          exact namesOK_updPort' (namesOK_setPorts' h
            (names_get_port (namesOK_portsAt h mi) hgp)) (fun q => rfl)
  · simp only [hc1, if_true] at hl
    rcases haf : afterFirst (str "name=\"") line with _ | rest
    · simp only [haf] at hl
      exact Option.noConfusion hl
    · simp only [haf] at hl
      rcases huq : untilQuote rest with _ | nm
      · simp only [huq] at hl
        injection hl with h1
        injection h1 with h2 h3
        exact h2 ▸ h
      · simp only [huq] at hl
        rcases hgm : get_module st nm true with ⟨r1, st1⟩
        simp only [hgm] at hl
        injection hl with h1
        injection h1 with h2 h3
        exact h2 ▸ namesOK_get_module h hgm

theorem namesOK_load_lines {lines : List Str} :
    ∀ {st : Store} {cur : Option Nat} {st' : Store} {cur' : Option Nat},
    namesOK st → load_lines lines (st, cur) = some (st', cur') → namesOK st' := by
  induction lines with
  | nil =>
    intro st cur st' cur' h hl
    rw [load_lines] at hl
    injection hl with h1
    injection h1 with h2 h3
    exact h2 ▸ h
  | cons l ls ih =>
    intro st cur st' cur' h hl
    rw [load_lines] at hl
    rcases hline : load_line (st, cur) l with _ | ⟨st2, cur2⟩
    · rw [hline] at hl
      exact Option.noConfusion hl
    · rw [hline] at hl
      exact ih (namesOK_load_line h hline) hl

theorem nth_modifyIdx_none {α : Type} {l : List α} {i : Nat} (f : α → α)
    (h : nth l i = none) : nth (modifyIdx l i f) i = none := by
  induction l generalizing i with
  | nil => rfl
  | cons b l ih =>
    cases i with
    | zero => simp [nth] at h
    | succ n => simpa [modifyIdx, nth] using ih (by simpa [nth] using h)

theorem nodeName_setNext (h : PHeap) (i : Nat) (v : Option Nat) (k : Nat) :
    nodeName (setNext h i v) k = nodeName h k := by
  by_cases hk : k = i
  · subst hk
    rcases hn : nth h.nodes k with _ | nd
    · simp [nodeName, setNext,
        nth_modifyIdx_none (fun nd => { nd with next := v }) hn, hn]
    · simp [nodeName, setNext, nth_modifyIdx_self' hn, hn]
  · simp [nodeName, setNext, nth_modifyIdx_ne h.nodes i k _ hk]

theorem nodeName_moveSwap (h : PHeap) (cur target : Nat) (tp : Option Nat) (k : Nat) :
    nodeName (moveSwap h cur target tp).1 k = nodeName h k := by
  simp only [moveSwap]
  cases tp with
  | none =>
    rw [nodeName_setNext, nodeName_setNext]
    rfl
  | some t => simp [nodeName_setNext]

theorem nodeName_cmd_move_port (h : PHeap) (pname : Str) (up : Bool) (k : Nat) :
    nodeName (cmd_move_port h pname up).1 k = nodeName h k := by
  rw [cmd_move_port]
  split
  · rfl
  · split
    · rfl
    · split
      · split
        · rfl
        · exact nodeName_moveSwap _ _ _ _ k
      · split
        · rfl
        · exact nodeName_moveSwap _ _ _ _ k

/-- C10: `get_module(name, create)` and `get_port(mod, name, create)` return
`NULL` without mutating the store when the name is empty, even when creation
is requested; consequently every module and port name ever stored is
non-empty — an invariant preserved by `add`, `remove`, `edit`, any
`load_xml` (whatever the file contents), and the move commands (which write
no name). -/
theorem c10_empty_names_rejected :
    (∀ (st : Store) (c : Bool), get_module st [] c = (none, st)) ∧
    (∀ (ports : List Port) (c : Bool), get_port ports [] c = (none, ports)) ∧
    (∀ (st : Store) (src dst : Str), namesOK st → namesOK (cmd_add st src dst).1) ∧
    (∀ (st : Store) (src dst : Str), namesOK st → namesOK (cmd_remove st src dst).1) ∧
    (∀ (st : Store) (target nt nd : Str), namesOK st →
      namesOK (cmd_edit st target nt nd).1) ∧
    (∀ (file : Str) (st st' : Store), namesOK st → load_xml file st = some st' →
      namesOK st') ∧
    (∀ (h : PHeap) (pname : Str) (up : Bool) (k : Nat),
      nodeName (cmd_move_port h pname up).1 k = nodeName h k) := by
  refine ⟨fun st c => by rw [get_module]; rfl,
    fun ports c => by rw [get_port]; rfl,
    namesOK_cmd_add, namesOK_cmd_remove, namesOK_cmd_edit, ?_,
    nodeName_cmd_move_port⟩
  intro file st st' h hl
  rw [load_xml] at hl
  rcases hll : load_lines (splitLines file) (st, none) with _ | ⟨st2, cur2⟩
  · rw [hll] at hl
    exact Option.noConfusion hl
  · rw [hll] at hl
    have : st2 = st' := by simpa using hl
    rw [← this]
    exact namesOK_load_lines h hll

/-! ### C1: round-trip of the persistence codec

`load_xml (save_xml st) []` is computed line by line: `splitLines` undoes
`joinNl` on newline-free lines, each saved line is classified by the
`strstr` tests of `load_xml`, and the `sscanf` scan is evaluated on the
exact text `save_xml` printed for each port. -/

theorem splitLinesAux_line (l : Str) (hl : ∀ c ∈ l, c ≠ '\n') (cur rest : Str) :
    splitLinesAux cur (l ++ '\n' :: rest) = (cur.reverse ++ l) :: splitLinesAux [] rest := by
  induction l generalizing cur with
  | nil => simp [splitLinesAux]
  | cons c l ih =>
    have hc : c ≠ '\n' := hl c (by simp)
    have hl' : ∀ c' ∈ l, c' ≠ '\n' := fun c' h' => hl c' (by simp [h'])
    simp [splitLinesAux, hc, ih hl']

theorem splitLines_joinNl (ls : List Str) (h : ∀ l ∈ ls, ∀ c ∈ l, c ≠ '\n') :
    splitLines (joinNl ls) = ls := by
  induction ls with
  | nil => rfl
  | cons l ls ih =>
    have h1 : ∀ c ∈ l, c ≠ '\n' := h l (by simp)
    have h2 : ∀ l' ∈ ls, ∀ c ∈ l', c ≠ '\n' := fun l' hl' => h l' (by simp [hl'])
    have hj : joinNl (l :: ls) = l ++ '\n' :: joinNl ls := by simp [joinNl]
    rw [splitLines, hj, splitLinesAux_line l h1 [] (joinNl ls)]
    simpa [splitLines] using ih h2

theorem takeWhile_append_stop {α : Type} (p : α → Bool) {N : List α} (a : α) (r : List α)
    (hN : ∀ c ∈ N, p c = true) (ha : p a = false) :
    (N ++ a :: r).takeWhile p = N := by
  induction N with
  | nil => simp [List.takeWhile_cons, ha]
  | cons c N ih =>
    simp [List.takeWhile_cons, hN c (by simp),
      ih (fun c' h' => hN c' (by simp [h']))]

theorem dropWhile_append_stop {α : Type} (p : α → Bool) {N : List α} (a : α) (r : List α)
    (hN : ∀ c ∈ N, p c = true) (ha : p a = false) :
    (N ++ a :: r).dropWhile p = a :: r := by
  induction N with
  | nil => simp [List.dropWhile_cons, ha]
  | cons c N ih =>
    simp [List.dropWhile_cons, hN c (by simp),
      ih (fun c' h' => hN c' (by simp [h']))]

theorem readField_append {N : Str} (r : Str) (hne : N ≠ []) (hq : ∀ c ∈ N, c ≠ '"') :
    readField (N ++ '"' :: r) = some (N, '"' :: r) := by
  have hN : ∀ c ∈ N, (fun c => decide (c ≠ '"')) c = true := fun c h => by
    simpa using hq c h
  have htake := takeWhile_append_stop (fun c => decide (c ≠ '"')) '"' r hN (by simp)
  have hdrop := dropWhile_append_stop (fun c => decide (c ≠ '"')) '"' r hN (by simp)
  have hrf : readField (N ++ '"' :: r) =
      if ((N ++ '"' :: r).takeWhile (fun c => decide (c ≠ '"'))).isEmpty = true then none
      else some ((N ++ '"' :: r).takeWhile (fun c => decide (c ≠ '"')),
        (N ++ '"' :: r).dropWhile (fun c => decide (c ≠ '"'))) := rfl
  rw [hrf, htake, hdrop, isEmpty_false_of_ne_nil hne]
  simp

theorem readField_quote (r : Str) : readField ('"' :: r) = none := by
  simp [readField]

theorem untilQuote_append {N : Str} (r : Str) (hq : ∀ c ∈ N, c ≠ '"') :
    untilQuote (N ++ '"' :: r) = some N := by
  have hN : ∀ c ∈ N, (fun c => decide (c ≠ '"')) c = true := fun c h => by
    simpa using hq c h
  have htake := takeWhile_append_stop (fun c => decide (c ≠ '"')) '"' r hN (by simp)
  have hu : untilQuote (N ++ '"' :: r) =
      if (N ++ '"' :: r).any (fun c => decide (c = '"')) = true then
        some ((N ++ '"' :: r).takeWhile (fun c => decide (c ≠ '"'))) else none := rfl
  have hany : (N ++ '"' :: r).any (fun c => decide (c = '"')) = true := by
    simp [List.any_append]
  rw [hu, htake, hany]
  simp

theorem afterFirst_append_lt_free {pat : Str} (hp : pat.head? = some '<') (F B : Str)
    (hF : ∀ c ∈ F, c ≠ '<') :
    afterFirst pat (F ++ B) = afterFirst pat B := by
  induction F with
  | nil => rfl
  | cons c F ih =>
    have hc : c ≠ '<' := hF c (by simp)
    have hpre : pat.isPrefixOf (c :: (F ++ B)) = false := by
      rcases pat with _ | ⟨p0, pt⟩
      · simp at hp
      · have hp0 : p0 = '<' := by simpa using hp
        subst hp0
        simp [List.isPrefixOf, Ne.symm hc]
    have hF' : ∀ c' ∈ F, c' ≠ '<' := fun c' h' => hF c' (by simp [h'])
    simpa [afterFirst, hpre] using ih hF'

/-! The concrete pieces of the saved lines, as explicit character lists so
that the scanners compute on them. -/

theorem str_moduleHead : str "  <module name=\"" =
    [' ', ' ', '<', 'm', 'o', 'd', 'u', 'l', 'e', ' ', 'n', 'a', 'm', 'e', '=', '"'] := by
  decide

theorem str_nameKey : str "name=\"" = ['n', 'a', 'm', 'e', '=', '"'] := by decide

theorem str_moduleTag : str "<module" = ['<', 'm', 'o', 'd', 'u', 'l', 'e'] := by decide

theorem str_portTag : str "<port" = ['<', 'p', 'o', 'r', 't'] := by decide

theorem str_portHead : str "    <port name=\"" =
    [' ', ' ', ' ', ' ', '<', 'p', 'o', 'r', 't', ' ', 'n', 'a', 'm', 'e', '=', '"'] := by
  decide

theorem str_quote : str "\"" = ['"'] := by decide

theorem str_typeKey : str "type=\"" = ['t', 'y', 'p', 'e', '=', '"'] := by decide

theorem str_typeSp : str " type=\"" = [' ', 't', 'y', 'p', 'e', '=', '"'] := by decide

theorem str_dirKey : str "dir=\"" = ['d', 'i', 'r', '=', '"'] := by decide

theorem str_dirSp : str " dir=\"" = [' ', 'd', 'i', 'r', '=', '"'] := by decide

theorem str_dmKey : str "dest_mod=\"" =
    ['d', 'e', 's', 't', '_', 'm', 'o', 'd', '=', '"'] := by decide

theorem str_dmSp : str " dest_mod=\"" =
    [' ', 'd', 'e', 's', 't', '_', 'm', 'o', 'd', '=', '"'] := by decide

theorem str_dpKey : str "dest_port=\"" =
    ['d', 'e', 's', 't', '_', 'p', 'o', 'r', 't', '=', '"'] := by decide

theorem str_dpSp : str " dest_port=\"" =
    [' ', 'd', 'e', 's', 't', '_', 'p', 'o', 'r', 't', '=', '"'] := by decide

theorem afterFirst_moduleLine (s : Str) :
    afterFirst (str "name=\"") (str "  <module name=\"" ++ s) = some s := by
  rw [str_nameKey, str_moduleHead]
  simp [afterFirst, List.isPrefixOf]

theorem containsSub_moduleLine (s : Str) :
    containsSub (str "  <module name=\"" ++ s) (str "<module") = true := by
  rw [str_moduleTag, str_moduleHead]
  simp [containsSub, afterFirst, List.isPrefixOf]

theorem afterFirst_portHead (s : Str) :
    afterFirst (str "<module") (str "    <port name=\"" ++ s) =
      afterFirst (str "<module") s := by
  rw [str_moduleTag, str_portHead]
  simp [afterFirst, List.isPrefixOf]

theorem containsSub_portTrue (s : Str) :
    containsSub (str "    <port name=\"" ++ s) (str "<port") = true := by
  rw [str_portTag, str_portHead]
  simp [containsSub, afterFirst, List.isPrefixOf]

/-- The `\"` closing a field, split off the literal that follows it. -/
theorem portLine_eq (p : Port) : portLine p =
    str "    <port name=\"" ++ (p.name ++ ('"' :: (str " type=\"" ++ (p.type ++
      ('"' :: (str " dir=\"" ++ (dir_to_str p.dir ++ ('"' :: (str " dest_mod=\"" ++
      (p.dest_module ++ ('"' :: (str " dest_port=\"" ++ (p.dest_port ++
      ('"' :: str " />")))))))))))))) := by
  have h1 : str "\" type=\"" = '"' :: str " type=\"" := by decide
  have h2 : str "\" dir=\"" = '"' :: str " dir=\"" := by decide
  have h3 : str "\" dest_mod=\"" = '"' :: str " dest_mod=\"" := by decide
  have h4 : str "\" dest_port=\"" = '"' :: str " dest_port=\"" := by decide
  have h5 : str "\" />" = '"' :: str " />" := by decide
  simp [portLine, h1, h2, h3, h4, h5, List.append_assoc]

theorem dir_ne_nil (d : Direction) : dir_to_str d ≠ [] := by
  cases d <;> decide

theorem dir_quote_free (d : Direction) : ∀ c ∈ dir_to_str d, c ≠ '"' := by
  cases d <;> decide

theorem dir_lt_free (d : Direction) : ∀ c ∈ dir_to_str d, c ≠ '<' := by
  cases d <;> decide

theorem dir_nl_free (d : Direction) : ∀ c ∈ dir_to_str d, c ≠ '\n' := by
  cases d <;> decide

theorem str_to_dir_roundtrip (d : Direction) : str_to_dir (dir_to_str d) = d := by
  cases d <;> decide

theorem str_to_dir_nil : str_to_dir [] = DIR_NONE := by decide

/-- A `<port .../>` line whose fields are `'<'`-free never passes the
`strstr(line, "<module")` test. -/
theorem containsSub_portLine_module (p : Port)
    (hn : ∀ c ∈ p.name, c ≠ '<') (ht : ∀ c ∈ p.type, c ≠ '<')
    (hm : ∀ c ∈ p.dest_module, c ≠ '<') (hp : ∀ c ∈ p.dest_port, c ≠ '<') :
    containsSub (portLine p) (str "<module") = false := by
  have hpat : (str "<module").head? = some '<' := by decide
  rw [containsSub, portLine_eq, afterFirst_portHead]
  simp only [← List.cons_append]
  rw [afterFirst_append_lt_free hpat p.name _ hn,
    afterFirst_append_lt_free hpat _ _ (by decide : ∀ c ∈ '"' :: str " type=\"", c ≠ '<'),
    afterFirst_append_lt_free hpat p.type _ ht,
    afterFirst_append_lt_free hpat _ _ (by decide : ∀ c ∈ '"' :: str " dir=\"", c ≠ '<'),
    afterFirst_append_lt_free hpat (dir_to_str p.dir) _ (dir_lt_free p.dir),
    afterFirst_append_lt_free hpat _ _
      (by decide : ∀ c ∈ '"' :: str " dest_mod=\"", c ≠ '<'),
    afterFirst_append_lt_free hpat p.dest_module _ hm,
    afterFirst_append_lt_free hpat _ _
      (by decide : ∀ c ∈ '"' :: str " dest_port=\"", c ≠ '<'),
    afterFirst_append_lt_free hpat p.dest_port _ hp]
  decide

/-- The `<port` test on a saved port line. -/
theorem containsSub_portLine_port (p : Port) :
    containsSub (portLine p) (str "<port") = true := by
  rw [portLine_eq]
  exact containsSub_portTrue _

/-- The fixed prefix of the port format consumes the fixed prefix of a
saved port line; the scan continues at the first field. -/
theorem sscanf_port_start (s : Str) :
    sscanf_port (str "    <port name=\"" ++ s) =
      match readField s with
      | none => ([], [], [], [], [])
      | some (nm, s2) =>
        match scanKV (str "type=\"") s2 with
        | none => (nm, [], [], [], [])
        | some (ty, s3) =>
          match scanKV (str "dir=\"") s3 with
          | none => (nm, ty, [], [], [])
          | some (ds, s4) =>
            match scanKV (str "dest_mod=\"") s4 with
            | none => (nm, ty, ds, [], [])
            | some (dm, s5) =>
              match scanKV (str "dest_port=\"") s5 with
              | none => (nm, ty, ds, dm, [])
              | some (dp, _) => (nm, ty, ds, dm, dp) := by
  rw [str_portHead]
  simp [sscanf_port, skipWs, isSpace, expectLit, str_portTag, str_nameKey]

theorem scanKV_type (s : Str) :
    scanKV (str "type=\"") ('"' :: (str " type=\"" ++ s)) = readField s := by
  simp [scanKV, expectLit, skipWs, isSpace, str_quote, str_typeKey, str_typeSp]

theorem scanKV_dir (s : Str) :
    scanKV (str "dir=\"") ('"' :: (str " dir=\"" ++ s)) = readField s := by
  simp [scanKV, expectLit, skipWs, isSpace, str_quote, str_dirKey, str_dirSp]

theorem scanKV_dm (s : Str) :
    scanKV (str "dest_mod=\"") ('"' :: (str " dest_mod=\"" ++ s)) = readField s := by
  simp [scanKV, expectLit, skipWs, isSpace, str_quote, str_dmKey, str_dmSp]

theorem scanKV_dp (s : Str) :
    scanKV (str "dest_port=\"") ('"' :: (str " dest_port=\"" ++ s)) = readField s := by
  simp [scanKV, expectLit, skipWs, isSpace, str_quote, str_dpKey, str_dpSp]

/-- The `sscanf` of `load_xml` on the exact line `save_xml` printed for a
port with quote-free fields: conversions succeed left to right until the
first empty field (`%[^\"]` fails on an empty value), later buffers keeping
their cleared values.  `dir=` is never empty, so the cutoffs are at `type=`
and at `dest_mod=`. -/
theorem sscanf_portLine (p : Port) (hn : p.name ≠ []) (hqn : ∀ c ∈ p.name, c ≠ '"')
    (hqt : ∀ c ∈ p.type, c ≠ '"') (hqm : ∀ c ∈ p.dest_module, c ≠ '"')
    (hqp : ∀ c ∈ p.dest_port, c ≠ '"') :
    sscanf_port (portLine p) =
      if p.type = [] then (p.name, [], [], [], [])
      else if p.dest_module = [] then (p.name, p.type, dir_to_str p.dir, [], [])
      else if p.dest_port = [] then (p.name, p.type, dir_to_str p.dir, p.dest_module, [])
      else (p.name, p.type, dir_to_str p.dir, p.dest_module, p.dest_port) := by
  rw [portLine_eq, sscanf_port_start, readField_append _ hn hqn]
  simp only []
  rw [scanKV_type]
  by_cases ht : p.type = []
  · rw [ht]
    simp only [List.nil_append]
    rw [readField_quote]
    simp [ht]
  · rw [readField_append _ ht hqt]
    simp only []
    rw [scanKV_dir, readField_append _ (dir_ne_nil p.dir) (dir_quote_free p.dir)]
    simp only []
    rw [scanKV_dm]
    by_cases hm : p.dest_module = []
    · rw [hm]
      simp only [List.nil_append]
      rw [readField_quote]
      simp [ht, hm]
    · rw [readField_append _ hm hqm]
      simp only []
      rw [scanKV_dp]
      by_cases hp : p.dest_port = []
      · rw [hp]
        simp only [List.nil_append]
        rw [readField_quote]
        simp [ht, hm, hp]
      · rw [readField_append _ hp hqp]
        simp [ht, hm, hp]

/-! ### Well-formedness for the round-trip

The conditions under which one `save_xml` line reloads exactly: bounded
quote-free fields that survive the format's limitations (no `'\n'` — it
would split the line, no `'<'` — it could make a port line pass the
`"<module"` test, and no empty field before a non-empty one in the fixed
attribute order, since `%[^\"]` fails on an empty value and stops the
scan). -/

def wfField (s : Str) : Prop :=
  s.length ≤ 63 ∧ ∀ c ∈ s, c ≠ '"' ∧ c ≠ '\n' ∧ c ≠ '<'

def wfPort (p : Port) : Prop :=
  p.name ≠ [] ∧ wfField p.name ∧ wfField p.type ∧ wfField p.dest_module ∧
  wfField p.dest_port ∧
  (p.type = [] → p.dir = DIR_NONE ∧ p.dest_module = [] ∧ p.dest_port = []) ∧
  (p.dest_module = [] → p.dest_port = [])

def wfModule (m : Module) : Prop :=
  m.name ≠ [] ∧ m.name.length ≤ 63 ∧ (∀ c ∈ m.name, c ≠ '"' ∧ c ≠ '\n') ∧
  (m.ports.map Port.name).Nodup ∧ ∀ p ∈ m.ports, wfPort p

def wfStore (st : Store) : Prop :=
  (st.map Module.name).Nodup ∧ ∀ m ∈ st, wfModule m

instance (s : Str) : Decidable (wfField s) := by unfold wfField; infer_instance

instance (p : Port) : Decidable (wfPort p) := by unfold wfPort; infer_instance

instance (m : Module) : Decidable (wfModule m) := by unfold wfModule; infer_instance

instance (st : Store) : Decidable (wfStore st) := by unfold wfStore; infer_instance

/-- What `load_xml` stores for a scanned port line reconstructs the saved
port's fields exactly, in every cutoff case of the scan. -/
theorem sscanf_portLine_fields (p : Port) (hwf : wfPort p) :
    (sscanf_port (portLine p)).1 = p.name ∧
    ∀ q : Port,
      { q with
        type := (sscanf_port (portLine p)).2.1.take 63,
        dir := str_to_dir (sscanf_port (portLine p)).2.2.1,
        dest_module := (sscanf_port (portLine p)).2.2.2.1.take 63,
        dest_port := (sscanf_port (portLine p)).2.2.2.2.take 63 } =
      { q with
        type := p.type,
        dir := p.dir,
        dest_module := p.dest_module,
        dest_port := p.dest_port } := by
  obtain ⟨hn, ⟨hln, hcn⟩, ⟨hlt, hct⟩, ⟨hlm, hcm⟩, ⟨hlp, hcp⟩, himp1, himp2⟩ := hwf
  have hqn : ∀ c ∈ p.name, c ≠ '"' := fun c h => (hcn c h).1
  have hqt : ∀ c ∈ p.type, c ≠ '"' := fun c h => (hct c h).1
  have hqm : ∀ c ∈ p.dest_module, c ≠ '"' := fun c h => (hcm c h).1
  have hqp : ∀ c ∈ p.dest_port, c ≠ '"' := fun c h => (hcp c h).1
  rw [sscanf_portLine p hn hqn hqt hqm hqp]
  by_cases ht : p.type = []
  · obtain ⟨hd, hdm, hdp⟩ := himp1 ht
    refine ⟨by simp [ht], fun q => ?_⟩
    simp [ht, hd, hdm, hdp, str_to_dir_nil]
  · by_cases hm : p.dest_module = []
    · have hdp := himp2 hm
      refine ⟨by simp [ht, hm], fun q => ?_⟩
      simp [ht, hm, hdp, str_to_dir_roundtrip, List.take_of_length_le hlt]
    · by_cases hp : p.dest_port = []
      · refine ⟨by simp [ht, hm, hp], fun q => ?_⟩
        simp [ht, hm, hp, str_to_dir_roundtrip, List.take_of_length_le hlt,
          List.take_of_length_le hlm]
      · refine ⟨by simp [ht, hm, hp], fun q => ?_⟩
        simp [ht, hm, hp, str_to_dir_roundtrip, List.take_of_length_le hlt,
          List.take_of_length_le hlm, List.take_of_length_le hlp]

/-! ### One `load_xml` iteration on each kind of saved line -/

theorem load_line_other (st : Store) (cur : Option Nat) (line : Str)
    (h1 : containsSub line (str "<module") = false)
    (h2 : containsSub line (str "<port") = false) :
    load_line (st, cur) line = some (st, cur) := by
  simp [load_line, h1, h2]

theorem load_line_root (st : Store) (cur : Option Nat) :
    load_line (st, cur) (str "<root>") = some (st, cur) :=
  load_line_other st cur _ (by decide) (by decide)

theorem load_line_rootClose (st : Store) (cur : Option Nat) :
    load_line (st, cur) (str "</root>") = some (st, cur) :=
  load_line_other st cur _ (by decide) (by decide)

theorem load_line_moduleClose (st : Store) (cur : Option Nat) :
    load_line (st, cur) (str "  </module>") = some (st, cur) :=
  load_line_other st cur _ (by decide) (by decide)

theorem moduleHeader_eq (M : Str) :
    str "  <module name=\"" ++ M ++ str "\">" =
      str "  <module name=\"" ++ (M ++ ('"' :: str ">")) := by
  have h : str "\">" = '"' :: str ">" := by decide
  simp [h, List.append_assoc]

theorem load_line_moduleLine (st : Store) (cur : Option Nat) (M : Str)
    (hq : ∀ c ∈ M, c ≠ '"') :
    load_line (st, cur) (str "  <module name=\"" ++ (M ++ ('"' :: str ">"))) =
      some ((get_module st M true).2, (get_module st M true).1) := by
  have hc := containsSub_moduleLine (M ++ ('"' :: str ">"))
  simp only [load_line, hc, if_true]
  rw [afterFirst_moduleLine]
  simp only []
  rw [untilQuote_append _ hq]

set_option maxHeartbeats 1000000 in
theorem load_line_portLine (st : Store) (mi : Nat) (p : Port) (hwf : wfPort p) :
    load_line (st, some mi) (portLine p) =
      match get_port (portsAt st mi) p.name true with
      | (none, _) => none
      | (some pj, ports') => some (updPort (setPorts st mi ports') mi pj
          (fun q => { q with
            type := p.type,
            dir := p.dir,
            dest_module := p.dest_module,
            dest_port := p.dest_port }), some mi) := by
  obtain ⟨hf1, hf2⟩ := sscanf_portLine_fields p hwf
  obtain ⟨hn, ⟨hln, hcn⟩, ⟨hlt, hct⟩, ⟨hlm, hcm⟩, ⟨hlp, hcp⟩, himp1, himp2⟩ := hwf
  have h1 : containsSub (portLine p) (str "<module") = false :=
    containsSub_portLine_module p (fun c h => (hcn c h).2.2) (fun c h => (hct c h).2.2)
      (fun c h => (hcm c h).2.2) (fun c h => (hcp c h).2.2)
  have h2 := containsSub_portLine_port p
  simp only [load_line, h1, h2, Bool.false_eq_true, if_false, if_true]
  rcases hsc : sscanf_port (portLine p) with ⟨nm, ty, ds, dm, dp⟩
  rw [hsc] at hf1
  simp only at hf1
  have hf2' : ∀ q : Port,
      { q with
        type := ty.take 63,
        dir := str_to_dir ds,
        dest_module := dm.take 63,
        dest_port := dp.take 63 } =
      { q with
        type := p.type,
        dir := p.dir,
        dest_module := p.dest_module,
        dest_port := p.dest_port } := by
    intro q
    have := hf2 q
    rw [hsc] at this
    simpa using this
  simp only []
  rw [hf1, funext hf2']

/-! ### The line loop over the saved document -/

theorem load_lines_append (a b : List Str) (acc : Store × Option Nat) :
    load_lines (a ++ b) acc =
      match load_lines a acc with
      | none => none
      | some acc' => load_lines b acc' := by
  induction a generalizing acc with
  | nil => simp [load_lines]
  | cons l a ih =>
    simp only [List.cons_append, load_lines]
    rcases load_line acc l with _ | acc'
    · rfl
    · exact ih acc'

theorem modifyIdx_eq_self {α : Type} {l : List α} {i : Nat} {a : α} (f : α → α)
    (h : nth l i = some a) (hf : f a = a) : modifyIdx l i f = l := by
  induction l generalizing i with
  | nil => rfl
  | cons b l ih =>
    cases i with
    | zero =>
      have hb : b = a := by simpa [nth] using h
      subst hb
      simp [modifyIdx, hf]
    | succ n => simp [modifyIdx, ih (by simpa [nth] using h)]

theorem modifyIdx_append_length {α : Type} (l : List α) (a : α) (f : α → α) :
    modifyIdx (l ++ [a]) l.length f = l ++ [f a] := by
  induction l with
  | nil => rfl
  | cons b l ih => simp [modifyIdx, ih]

theorem updPort_setPorts (st : Store) (mi : Nat) (xs : List Port) (j : Nat)
    (f : Port → Port) :
    updPort (setPorts st mi xs) mi j f = setPorts st mi (modifyIdx xs j f) := by
  rw [updPort, setPorts, setPorts, modifyIdx_comp]

theorem setPorts_setPorts (st : Store) (mi : Nat) (xs ys : List Port) :
    setPorts (setPorts st mi xs) mi ys = setPorts st mi ys := by
  rw [setPorts, setPorts, setPorts, modifyIdx_comp]

theorem portsAt_eq {st : Store} {mi : Nat} {m : Module} (h : nth st mi = some m) :
    portsAt st mi = m.ports := by
  simp [portsAt, h]

/-- Loading, one by one, the saved lines of fresh well-formed ports into
the module at `mi` appends exactly those ports. -/
theorem load_port_lines (ps : List Port) : ∀ (st : Store) (mi : Nat) (m : Module),
    nth st mi = some m → (∀ p ∈ ps, wfPort p) →
    (ps.map Port.name).Nodup →
    (∀ p ∈ ps, firstIdx (fun q => q.name == p.name) m.ports = none) →
    load_lines (ps.map portLine) (st, some mi) =
      some (setPorts st mi (m.ports ++ ps), some mi) := by
  induction ps with
  | nil =>
    intro st mi m hm _ _ _
    have hid : setPorts st mi m.ports = st := modifyIdx_eq_self _ hm rfl
    simp [load_lines, hid]
  | cons p ps ih =>
    intro st mi m hm hwf hnd habs
    have hwfp : wfPort p := hwf p (by simp)
    have hname_ne : p.name ≠ [] := hwfp.1
    have hname_len : p.name.length ≤ 63 := hwfp.2.1.1
    simp only [List.map_cons, load_lines]
    rw [load_line_portLine st mi p hwfp]
    have hget : get_port (portsAt st mi) p.name true =
        (some m.ports.length, m.ports ++ [mkPort p.name]) := by
      rw [portsAt_eq hm, get_port]
      simp [isEmpty_false_of_ne_nil hname_ne, habs p (by simp)]
    rw [hget]
    simp only []
    have hupd : updPort (setPorts st mi (m.ports ++ [mkPort p.name])) mi
        m.ports.length (fun q => { q with
          type := p.type,
          dir := p.dir,
          dest_module := p.dest_module,
          dest_port := p.dest_port }) = setPorts st mi (m.ports ++ [p]) := by
      rw [updPort_setPorts, modifyIdx_append_length]
      simp [mkPort, List.take_of_length_le hname_len]
    rw [hupd]
    have hm' : nth (setPorts st mi (m.ports ++ [p])) mi =
        some { m with ports := m.ports ++ [p] } := nth_setPorts_self _ hm
    have hnotin : p.name ∉ ps.map Port.name := (List.nodup_cons.mp hnd).1
    have ihabs : ∀ q ∈ ps,
        firstIdx (fun r => r.name == q.name) (m.ports ++ [p]) = none := by
      intro q hq
      have hne : (p.name == q.name) = false := by
        have : p.name ≠ q.name := fun he => hnotin (he ▸ List.mem_map_of_mem _ hq)
        simpa using this
      rw [firstIdx_append_none (habs q (by simp [hq]))]
      simp [firstIdx, hne]
    have hrec := ih (setPorts st mi (m.ports ++ [p])) mi
      { m with ports := m.ports ++ [p] } hm'
      (fun q hq => hwf q (by simp [hq])) (List.nodup_cons.mp hnd).2 ihabs
    rw [hrec, setPorts_setPorts]
    simp

/-- Loading the saved lines of well-formed, fresh modules appends exactly
those modules, whatever the incoming `current_mod`. -/
theorem load_module_lines (ms : List Module) : ∀ (st0 : Store) (cur0 : Option Nat),
    (∀ m ∈ ms, wfModule m) →
    ((st0 ++ ms).map Module.name).Nodup →
    ∃ c, load_lines (ms.flatMap moduleLines) (st0, cur0) = some (st0 ++ ms, c) := by
  induction ms with
  | nil =>
    intro st0 cur0 _ _
    exact ⟨cur0, by simp [load_lines]⟩
  | cons m ms ih =>
    intro st0 cur0 hwf hnd
    have hwfm : wfModule m := hwf m (by simp)
    obtain ⟨hmne, hmlen, hmchars, hndp, hwfp⟩ := hwfm
    have habs : firstIdx (fun mm => mm.name == m.name) st0 = none := by
      rw [firstIdx_none_iff]
      intro a ha
      have hnd' : (List.map Module.name st0 ++ List.map Module.name (m :: ms)).Nodup := by
        simpa using hnd
      have hdisj := (List.nodup_append.mp hnd').2.2
      have hne : a.name ≠ m.name := by
        intro he
        exact hdisj (List.mem_map_of_mem _ ha) (by simp [he])
      simpa using hne
    have hget : get_module st0 m.name true =
        (some st0.length, st0 ++ [mkModule m.name]) := by
      rw [get_module]
      simp [isEmpty_false_of_ne_nil hmne, habs]
    have hmk : mkModule m.name = (⟨m.name, []⟩ : Module) := by
      simp [mkModule, List.take_of_length_le hmlen]
    have hheader : load_line (st0, cur0) (str "  <module name=\"" ++ m.name ++ str "\">") =
        some (st0 ++ [(⟨m.name, []⟩ : Module)], some st0.length) := by
      rw [moduleHeader_eq,
        load_line_moduleLine st0 cur0 m.name (fun c h => (hmchars c h).1), hget, hmk]
    have hm_nth : nth (st0 ++ [(⟨m.name, []⟩ : Module)]) st0.length =
        some (⟨m.name, []⟩ : Module) := by
      simpa [nth] using nth_append_length st0 [(⟨m.name, []⟩ : Module)]
    have hports := load_port_lines m.ports (st0 ++ [(⟨m.name, []⟩ : Module)])
      st0.length ⟨m.name, []⟩ hm_nth hwfp hndp (fun p _ => rfl)
    have hsp : setPorts (st0 ++ [(⟨m.name, []⟩ : Module)]) st0.length
        ((⟨m.name, []⟩ : Module).ports ++ m.ports) = st0 ++ [m] := by
      rw [setPorts, modifyIdx_append_length]
      simp
    rw [hsp] at hports
    have hflat : (m :: ms).flatMap moduleLines =
        ((str "  <module name=\"" ++ m.name ++ str "\">") ::
          (m.ports.map portLine ++ [str "  </module>"])) ++ ms.flatMap moduleLines := by
      simp [moduleLines]
    obtain ⟨c, hc⟩ := ih (st0 ++ [m]) (some st0.length)
      (fun q hq => hwf q (by simp [hq]))
      (by rw [List.append_assoc]; simpa using hnd)
    refine ⟨c, ?_⟩
    rw [hflat, load_lines_append]
    simp only [load_lines]
    rw [hheader]
    simp only []
    rw [load_lines_append]
    rw [hports]
    simp only []
    have hclose : load_lines [str "  </module>"] (st0 ++ [m], some st0.length) =
        some (st0 ++ [m], some st0.length) := by
      simp [load_lines, load_line_moduleClose]
    rw [hclose]
    simp only []
    rw [hc]
    rw [List.append_assoc]
    simp

theorem portLine_nl_free (p : Port) (hwf : wfPort p) :
    ∀ c ∈ portLine p, c ≠ '\n' := by
  obtain ⟨hn, ⟨hln, hcn⟩, ⟨hlt, hct⟩, ⟨hlm, hcm⟩, ⟨hlp, hcp⟩, himp1, himp2⟩ := hwf
  intro c hc
  rw [portLine_eq] at hc
  simp only [List.mem_append, List.mem_cons] at hc
  rcases hc with h | h | h | h | h | h | h | h | h | h | h | h | h | h | h
  · exact (by decide : ∀ c ∈ str "    <port name=\"", c ≠ '\n') c h
  · exact (hcn c h).2.1
  · subst h; decide
  · exact (by decide : ∀ c ∈ str " type=\"", c ≠ '\n') c h
  · exact (hct c h).2.1
  · subst h; decide
  · exact (by decide : ∀ c ∈ str " dir=\"", c ≠ '\n') c h
  · exact dir_nl_free p.dir c h
  · subst h; decide
  · exact (by decide : ∀ c ∈ str " dest_mod=\"", c ≠ '\n') c h
  · exact (hcm c h).2.1
  · subst h; decide
  · exact (by decide : ∀ c ∈ str " dest_port=\"", c ≠ '\n') c h
  · exact (hcp c h).2.1
  · rcases h with h | h
    · subst h; decide
    · exact (by decide : ∀ c ∈ str " />", c ≠ '\n') c h

theorem save_lines_nl_free (st : Store) (h : wfStore st) :
    ∀ l ∈ save_lines st, ∀ c ∈ l, c ≠ '\n' := by
  intro l hl
  simp only [save_lines, List.mem_cons, List.mem_append, List.mem_flatMap,
    List.mem_singleton] at hl
  rcases hl with h1 | ⟨⟨m, hm, hml⟩ | h1⟩
  · subst h1; decide
  · have hwfm : wfModule m := h.2 m hm
    obtain ⟨hmne, hmlen, hmchars, hndp, hwfp⟩ := hwfm
    simp only [moduleLines, List.mem_cons, List.mem_append, List.mem_map,
      List.mem_singleton] at hml
    rcases hml with h2 | ⟨⟨p, hp, h2⟩ | h2⟩
    · subst h2
      intro c hc
      simp only [List.mem_append] at hc
      rcases hc with (h3 | h3) | h3
      · exact (by decide : ∀ c ∈ str "  <module name=\"", c ≠ '\n') c h3
      · exact (hmchars c h3).2
      · exact (by decide : ∀ c ∈ str "\">", c ≠ '\n') c h3
    · subst h2
      exact portLine_nl_free p (hwfp p hp)
    · rcases h2 with h2 | h2
      · subst h2; decide
      · simp at h2
  · rcases h1 with h1 | h1
    · subst h1; decide
    · simp at h1

/-- The round-trip: `save_xml` then `load_xml` into an empty store rebuilds
a well-formed store exactly. -/
theorem save_roundtrip (st : Store) (h : wfStore st) :
    load_xml (save_xml st) [] = some st := by
  rw [load_xml, save_xml, splitLines_joinNl _ (save_lines_nl_free st h), save_lines]
  obtain ⟨c, hc⟩ := load_module_lines st [] none h.2 (by simpa using h.1)
  simp only [load_lines]
  rw [load_line_root]
  simp only []
  rw [load_lines_append]
  simp only [List.nil_append] at hc
  rw [hc]
  simp only []
  simp [load_lines, load_line_rootClose]

/-- C1: round-trip of the persistence codec.  Quote-freeness alone is not
enough (see the counterexample theorem): the claim holds on well-formed
stores — non-empty bounded names unique at their level, fields free of
`'"'`, `'\n'` and `'<'`, and no empty attribute written before a non-empty
one in the fixed attribute order (an empty `type=\"\"` or `dest_mod=\"\"`
makes the `%[^\"]` conversion fail and stops the scan early). -/
theorem c1_roundtrip_wf (st : Store) (h : wfStore st) :
    load_xml (save_xml st) [] = some st := save_roundtrip st h

/-- C1 (counterexample to the claim as stated): every field of this store
is quote-free, yet the single port has an empty type and direction `In`;
`sscanf` stops at the empty `type=\"\"` attribute, the cleared buffers are
stored, and the port reloads with direction `None` — encode then decode
does not reproduce the store. -/
theorem c1_quote_free_not_sufficient :
    (∀ m ∈ ([⟨str "M", [⟨str "P", [], DIR_IN, [], []⟩]⟩] : Store),
      (∀ c ∈ m.name, c ≠ '"') ∧
        ∀ p ∈ m.ports, (∀ c ∈ p.name, c ≠ '"') ∧ (∀ c ∈ p.type, c ≠ '"') ∧
          (∀ c ∈ p.dest_module, c ≠ '"') ∧ ∀ c ∈ p.dest_port, c ≠ '"') ∧
    load_xml (save_xml ([⟨str "M", [⟨str "P", [], DIR_IN, [], []⟩]⟩] : Store)) [] ≠
      some ([⟨str "M", [⟨str "P", [], DIR_IN, [], []⟩]⟩] : Store) := by decide

/-- C1 witness: a two-module store with a link round-trips exactly. -/
theorem c1_roundtrip_wf_witness :
    wfStore ([⟨str "M", [⟨str "P", str "int", DIR_OUT, str "D", str "Q"⟩]⟩,
      ⟨str "D", [⟨str "Q", str "int", DIR_IN, [], []⟩]⟩] : Store) ∧
    load_xml (save_xml ([⟨str "M", [⟨str "P", str "int", DIR_OUT, str "D", str "Q"⟩]⟩,
      ⟨str "D", [⟨str "Q", str "int", DIR_IN, [], []⟩]⟩] : Store)) [] =
      some ([⟨str "M", [⟨str "P", str "int", DIR_OUT, str "D", str "Q"⟩]⟩,
        ⟨str "D", [⟨str "Q", str "int", DIR_IN, [], []⟩]⟩] : Store) :=
  ⟨by decide, c1_roundtrip_wf _ (by decide)⟩

/-! ### C5: the direction/destination invariant -/

/-- The data-model invariant on one port: direction `In` or `None` implies
both destination fields are empty. -/
def portOK (p : Port) : Prop :=
  (p.dir = DIR_IN ∨ p.dir = DIR_NONE) → p.dest_module = [] ∧ p.dest_port = []

/-- The invariant over a whole store. -/
def invariantOK (st : Store) : Prop := ∀ m ∈ st, ∀ p ∈ m.ports, portOK p

instance (p : Port) : Decidable (portOK p) := by unfold portOK; infer_instance

instance (st : Store) : Decidable (invariantOK st) := by
  unfold invariantOK; infer_instance

theorem portOK_setTypeF (t : Str) (q : Port) (hq : portOK q) :
    portOK (setTypeF t q) := hq

theorem portOK_setLinkF (dm dp : Str) (q : Port) : portOK (setLinkF dm dp q) := by
  intro h
  simp [setLinkF] at h

theorem portOK_setInF (q : Port) : portOK (setInF q) := by
  intro h
  exact ⟨rfl, rfl⟩

theorem portOK_clearLinkF (q : Port) : portOK (clearLinkF q) := by
  intro h
  exact ⟨rfl, rfl⟩

theorem portOK_editF (t : Str) (d : Direction) (q : Port) : portOK (editF t d q) := by
  cases d <;> simp [portOK, editF]

theorem portOK_mkPort (n : Str) : portOK (mkPort n) := by
  intro h
  exact ⟨rfl, rfl⟩

theorem invOK_get_module {st : Store} {n : Str} {c : Bool} {r : Option Nat}
    {st₂ : Store} (h : invariantOK st) (hg : get_module st n c = (r, st₂)) :
    invariantOK st₂ := by
  rw [get_module] at hg
  split at hg
  · injection hg with h1 h2
    exact h2 ▸ h
  · split at hg
    · injection hg with h1 h2
      exact h2 ▸ h
    · split at hg
      · injection hg with h1 h2
        subst h2
        intro m hm
        rcases List.mem_append.1 hm with h1 | h1
        · exact h m h1
        · have : m = mkModule n := by simpa using h1
          subst this
          simp [mkModule]
      · injection hg with h1 h2
        exact h2 ▸ h

theorem inv_get_port {ports : List Port} {n : Str} {c : Bool} {r : Option Nat}
    {ports₂ : List Port} (h : ∀ p ∈ ports, portOK p)
    (hg : get_port ports n c = (r, ports₂)) :
    ∀ p ∈ ports₂, portOK p := by
  rw [get_port] at hg
  split at hg
  · injection hg with h1 h2
    exact h2 ▸ h
  · split at hg
    · injection hg with h1 h2
      exact h2 ▸ h
    · split at hg
      · injection hg with h1 h2
        subst h2
        intro p hp
        rcases List.mem_append.1 hp with h1 | h1
        · exact h p h1
        · have : p = mkPort n := by simpa using h1
          subst this
          exact portOK_mkPort n
      · injection hg with h1 h2
        exact h2 ▸ h

theorem invOK_portsAt {st : Store} (h : invariantOK st) (i : Nat) :
    ∀ p ∈ portsAt st i, portOK p := by
  rw [portsAt]
  rcases hn : nth st i with _ | m
  · simp
  · exact h m (nth_mem hn)

theorem invOK_setPorts' {st : Store} {i : Nat} {ps : List Port}
    (h : invariantOK st) (hps : ∀ p ∈ ps, portOK p) :
    invariantOK (setPorts st i ps) := by
  intro m hm
  rcases mem_modifyIdx hm with h1 | ⟨b, hb, rfl⟩
  · exact h m h1
  · exact hps

theorem invOK_updPort' {st : Store} {i j : Nat} {f : Port → Port}
    (h : invariantOK st) (hf : ∀ q, portOK q → portOK (f q)) :
    invariantOK (updPort st i j f) := by
  intro m hm
  rcases mem_modifyIdx hm with h1 | ⟨b, hb, rfl⟩
  · exact h m h1
  · intro p hp
    rcases mem_modifyIdx hp with h2 | ⟨q, hq, rfl⟩
    · exact h b hb p h2
    · exact hf q (h b hb q hq)

theorem invOK_cmd_add (st : Store) (src dst : Str) (h : invariantOK st) :
    invariantOK (cmd_add st src dst).1 := by
  simp only [cmd_add]
  rcases hok1 : (parse_arg_safe src).ok with _ | _
  · exact h
  · rcases hok2 : (parse_arg_safe dst).ok with _ | _
    · exact h
    · rcases hpe : (parse_arg_safe src).p.isEmpty with _ | _
      · simp only [Bool.not_true, Bool.false_eq_true, if_false]
        rcases hgm : get_module st (parse_arg_safe src).m true with ⟨r1, st1⟩
        have h1 : invariantOK st1 := invOK_get_module h hgm
        rcases r1 with _ | ms
        · exact h1
        · simp only []
          rcases hgp : get_port (portsAt st1 ms) (parse_arg_safe src).p true
            with ⟨r2, ports1⟩
          have h2ports : ∀ p ∈ ports1, portOK p :=
            inv_get_port (invOK_portsAt h1 ms) hgp
          rcases r2 with _ | psi
          · exact invOK_setPorts' h1 h2ports
          · simp only []
            have h3 : invariantOK (updPort (setPorts st1 ms ports1) ms psi
                (setTypeF (if (parse_arg_safe src).t.isEmpty = true then str "unknown"
                  else (parse_arg_safe src).t))) :=
              invOK_updPort' (invOK_setPorts' h1 h2ports)
                (portOK_setTypeF _)
            rcases hgm2 : get_module (updPort (setPorts st1 ms ports1) ms psi
                (setTypeF (if (parse_arg_safe src).t.isEmpty = true then str "unknown"
                  else (parse_arg_safe src).t))) (parse_arg_safe dst).m true
              with ⟨r3, st4⟩
            have h4 : invariantOK st4 := invOK_get_module h3 hgm2
            rcases r3 with _ | md
            · exact h4
            · simp only []
              rcases hgp2 : get_port (portsAt st4 md)
                  (if (parse_arg_safe dst).p.isEmpty = true then (parse_arg_safe src).p
                    else (parse_arg_safe dst).p) true with ⟨r4, ports2⟩
              have h5ports : ∀ p ∈ ports2, portOK p :=
                inv_get_port (invOK_portsAt h4 md) hgp2
              rcases r4 with _ | pdi
              · exact invOK_setPorts' h4 h5ports
              · simp only []
                exact invOK_updPort' (invOK_updPort' (invOK_updPort'
                  (invOK_setPorts' h4 h5ports) (portOK_setTypeF _))
                  (fun q _ => portOK_setLinkF _ _ q)) (fun q _ => portOK_setInF q)
      · exact h

theorem invOK_cmd_remove (st : Store) (src dst : Str) (h : invariantOK st) :
    invariantOK (cmd_remove st src dst).1 := by
  simp only [cmd_remove]
  rcases hgm : get_module st (parse_arg_safe src).m false with ⟨r1, st1⟩
  rcases r1 with _ | mi
  · exact h
  · simp only []
    rcases hgp : get_port (portsAt st mi) (parse_arg_safe src).p false with ⟨r2, ports1⟩
    rcases r2 with _ | pj
    · exact h
    · simp only []
      rcases hn : nth (portsAt st mi) pj with _ | p
      · exact h
      · simp only []
        rcases hcond : (p.dest_module == (parse_arg_safe dst).m &&
            p.dest_port == (parse_arg_safe dst).p) with _ | _
        · exact h
        · exact invOK_updPort' h (fun q _ => portOK_clearLinkF q)

theorem invOK_cmd_edit (st : Store) (target nt nd : Str) (h : invariantOK st) :
    invariantOK (cmd_edit st target nt nd).1 := by
  simp only [cmd_edit]
  rcases hok : (parse_arg_safe target).ok with _ | _
  · exact h
  · rcases hpe : (parse_arg_safe target).p.isEmpty with _ | _
    · simp only [Bool.not_true, Bool.false_eq_true, if_false]
      rcases hgm : get_module st (parse_arg_safe target).m false with ⟨r1, st1⟩
      rcases r1 with _ | mi
      · exact h
      · simp only []
        rcases hgp : get_port (portsAt st mi) (parse_arg_safe target).p false
          with ⟨r2, ports1⟩
        rcases r2 with _ | pj
        · exact h
        · exact invOK_updPort' h (fun q _ => portOK_editF _ _ q)
    · exact h

/-- The direction and destination fields stored at a node of a port
chain. -/
def nodeLink (h : PHeap) (i : Nat) : Option (Direction × Str × Str) :=
  match nth h.nodes i with
  | some nd => some (nd.dir, nd.dest_module, nd.dest_port)
  | none => none

theorem nodeLink_setNext (h : PHeap) (i : Nat) (v : Option Nat) (k : Nat) :
    nodeLink (setNext h i v) k = nodeLink h k := by
  by_cases hk : k = i
  · subst hk
    rcases hn : nth h.nodes k with _ | nd
    · simp [nodeLink, setNext,
        nth_modifyIdx_none (fun nd => { nd with next := v }) hn, hn]
    · simp [nodeLink, setNext, nth_modifyIdx_self' hn, hn]
  · simp [nodeLink, setNext, nth_modifyIdx_ne h.nodes i k _ hk]

theorem nodeLink_moveSwap (h : PHeap) (cur target : Nat) (tp : Option Nat) (k : Nat) :
    nodeLink (moveSwap h cur target tp).1 k = nodeLink h k := by
  simp only [moveSwap]
  cases tp with
  | none =>
    rw [nodeLink_setNext, nodeLink_setNext]
    rfl
  | some t => simp [nodeLink_setNext]

theorem nodeLink_cmd_move_port (h : PHeap) (pname : Str) (up : Bool) (k : Nat) :
    nodeLink (cmd_move_port h pname up).1 k = nodeLink h k := by
  rw [cmd_move_port]
  split
  · rfl
  · split
    · rfl
    · split
      · split
        · rfl
        · exact nodeLink_moveSwap _ _ _ _ k
      · split
        · rfl
        · exact nodeLink_moveSwap _ _ _ _ k

/-- The C5 invariant over a module's port chain. -/
def heapPortOK (h : PHeap) : Prop :=
  ∀ k nd, nth h.nodes k = some nd →
    ((nd.dir = DIR_IN ∨ nd.dir = DIR_NONE) →
      nd.dest_module = [] ∧ nd.dest_port = [])

theorem heapPortOK_cmd_move_port (h : PHeap) (pname : Str) (up : Bool)
    (hh : heapPortOK h) : heapPortOK (cmd_move_port h pname up).1 := by
  intro k nd hnd hdir
  have hlink := nodeLink_cmd_move_port h pname up k
  simp only [nodeLink, hnd] at hlink
  rcases hk : nth h.nodes k with _ | nd0
  · simp only [hk] at hlink
    exact Option.noConfusion hlink
  · simp only [hk, Option.some.injEq, Prod.mk.injEq] at hlink
    obtain ⟨e1, e2, e3⟩ := hlink
    rw [e2, e3]
    exact hh k nd0 hk (e1 ▸ hdir)

/-- Decoding the document encoded from a well-formed store reproduces that
store, so it preserves any property of it — in particular the invariant. -/
theorem invOK_load_of_save (st : Store) (hwf : wfStore st) (hinv : invariantOK st)
    (st' : Store) (hl : load_xml (save_xml st) [] = some st') : invariantOK st' := by
  rw [save_roundtrip st hwf] at hl
  injection hl with h1
  exact h1 ▸ hinv

/-- C5: the invariant "direction `In` or `None` implies empty destination
fields" is preserved by `add`, `remove`, `edit` and the move commands (they
rewire `next` pointers only), and by decode-of-encode on *well-formed*
stores; it is not preserved by decode-of-encode in general (see the
counterexample theorem): a quote inside a port name makes the reloaded
store violate the invariant even though the original satisfied it. -/
theorem c5_invariant_preserved :
    (∀ (st : Store) (src dst : Str), invariantOK st →
      invariantOK (cmd_add st src dst).1) ∧
    (∀ (st : Store) (src dst : Str), invariantOK st →
      invariantOK (cmd_remove st src dst).1) ∧
    (∀ (st : Store) (target nt nd : Str), invariantOK st →
      invariantOK (cmd_edit st target nt nd).1) ∧
    (∀ (h : PHeap) (pname : Str) (up : Bool), heapPortOK h →
      heapPortOK (cmd_move_port h pname up).1) ∧
    (∀ st : Store, wfStore st → invariantOK st →
      ∀ st', load_xml (save_xml st) [] = some st' → invariantOK st') :=
  ⟨invOK_cmd_add, invOK_cmd_remove, invOK_cmd_edit, heapPortOK_cmd_move_port,
    invOK_load_of_save⟩

/-- C5 (counterexample to the claim as stated): a store satisfying the
invariant (its only port has direction `None` and empty destinations)
whose port name contains quotes; the saved line re-parses with the quoted
material read as attribute values, and the reloaded store has a port with
direction `In` and a non-empty destination module — the decode step of the
claim does not preserve the invariant. -/
theorem c5_decode_breaks_invariant :
    invariantOK ([⟨str "M", [⟨str "X\" type=\"u\" dir=\"in\" dest_mod=\"E",
      [], DIR_NONE, [], []⟩]⟩] : Store) ∧
    load_xml (save_xml ([⟨str "M", [⟨str "X\" type=\"u\" dir=\"in\" dest_mod=\"E",
      [], DIR_NONE, [], []⟩]⟩] : Store)) [] =
      some ([⟨str "M", [⟨str "X", str "u", DIR_IN, str "E", []⟩]⟩] : Store) ∧
    ¬ invariantOK ([⟨str "M", [⟨str "X", str "u", DIR_IN, str "E", []⟩]⟩] : Store) := by
  decide
